import Mathlib

/-!
Shallow embedding of the diagnostic decision engine (diagnosis validation,
symptom matching, ensemble scoring, external-opinion validation and fusion)
together with proofs of the behavioural properties claimed for it.

Numbers that the source manipulates as Python floats are modelled as exact
rationals; the entropy computation is modelled over the reals.  Python
dictionaries are modelled as association lists in insertion order.
-/

set_option linter.unusedVariables false

/-! ## Python string primitives -/

/-- Lower-case a list of characters (Python str.lower on ASCII content). -/
def lowerL (l : List Char) : List Char := l.map Char.toLower

/-- Python str.strip: drop leading and trailing whitespace. -/
def trimL (l : List Char) : List Char :=
  ((l.dropWhile Char.isWhitespace).reverse.dropWhile Char.isWhitespace).reverse

/-- Python str.lower on a String. -/
def strLower (s : String) : String := String.mk (lowerL s.data)

/-- Python str.strip on a String. -/
def strStrip (s : String) : String := String.mk (trimL s.data)

/-- Boolean test: the first list is an initial segment of the second. -/
def prefB : List Char → List Char → Bool
  | [], _ => true
  | _ :: _, [] => false
  | a :: p, b :: t => a == b && prefB p t

/-- Boolean test: the first list occurs contiguously inside the second
(Python substring membership). -/
def occB (p : List Char) : List Char → Bool
  | [] => prefB p []
  | l@(_ :: rest) => prefB p l || occB p rest

/-- Python string membership test, sub in s. -/
def strIn (sub s : String) : Bool := occB sub.data s.data

/-! ## JSON-like values: the model of Python payload dictionaries -/

/-- JSON-like values used to model Python dict/list/str/number/bool payloads. -/
inductive JVal where
  | jnum (q : ℚ)
  | jstr (s : String)
  | jbool (b : Bool)
  | jnull
  | jlist (l : List JVal)
  | jobj (l : List (String × JVal))

/-- A Python dictionary with string keys, in insertion order. -/
abbrev Payload := List (String × JVal)

/-- First-match key lookup (Python dict indexing / dict.get). -/
def lookupKey (k : String) : Payload → Option JVal
  | [] => none
  | (k2, v) :: t => if k2 = k then some v else lookupKey k t

/-- Python membership test, k in dict. -/
def hasKey (k : String) (p : Payload) : Bool := (lookupKey k p).isSome

/-- Python dict assignment: replace the value at an existing key, else append. -/
def setKey (k : String) (v : JVal) : Payload → Payload
  | [] => [(k, v)]
  | (k2, v2) :: t => if k2 = k then (k, v) :: t else (k2, v2) :: setKey k v t

/-- Python isinstance(x, (int, float)) together with the numeric value; a
Python bool is an int, so it counts as a number here. -/
def toNumQ : JVal → Option ℚ
  | .jnum q => some q
  | .jbool b => some (if b then 1 else 0)
  | _ => none

/-- Python truthiness of a value. -/
def jFalsy : JVal → Bool
  | .jnum q => q = 0
  | .jstr s => s = ""
  | .jbool b => !b
  | .jnull => true
  | .jlist l => l.isEmpty
  | .jobj l => l.isEmpty

/-- Rendering of a rational in textual output.  The claims checked below never
depend on the exact digits a Python float prints as (all scanned phrases are
alphabetic), so any rendering of the number is adequate here. -/
def numLit (q : ℚ) : String :=
  toString q.num ++ (if q.den = 1 then "" else "/" ++ toString q.den)

mutual

/-- Python repr(...) of a payload value (container elements use repr). -/
def pyRepr : JVal → String
  | .jnum q => numLit q
  | .jstr s => "\x27" ++ s ++ "\x27"
  | .jbool b => if b then "True" else "False"
  | .jnull => "None"
  | .jlist l => "[" ++ pyReprList l ++ "]"
  | .jobj l => "\x7b" ++ pyReprObj l ++ "\x7d"

/-- Comma-joined repr of list elements. -/
def pyReprList : List JVal → String
  | [] => ""
  | [v] => pyRepr v
  | v :: t => pyRepr v ++ ", " ++ pyReprList t

/-- Comma-joined repr of dict items. -/
def pyReprObj : List (String × JVal) → String
  | [] => ""
  | [(k, v)] => "\x27" ++ k ++ "\x27: " ++ pyRepr v
  | (k, v) :: t => "\x27" ++ k ++ "\x27: " ++ pyRepr v ++ ", " ++ pyReprObj t

end

/-- Python str(...) of a payload value. -/
def pyStr : JVal → String
  | .jstr s => s
  | v => pyRepr v

/-- Escape for JSON string serialization (quote and backslash). -/
def escJ (s : String) : String :=
  String.mk (s.data.foldr
    (fun c acc =>
      if c = '"' then '\\' :: '"' :: acc
      else if c = '\\' then '\\' :: '\\' :: acc
      else c :: acc) [])

mutual

/-- Python json.dumps with default separators. -/
def jsonDumps : JVal → String
  | .jnum q => numLit q
  | .jstr s => "\"" ++ escJ s ++ "\""
  | .jbool b => if b then "true" else "false"
  | .jnull => "null"
  | .jlist l => "[" ++ dumpsList l ++ "]"
  | .jobj l => "\x7b" ++ dumpsObj l ++ "\x7d"

/-- Comma-joined dumps of list elements. -/
def dumpsList : List JVal → String
  | [] => ""
  | [v] => jsonDumps v
  | v :: t => jsonDumps v ++ ", " ++ dumpsList t

/-- Comma-joined dumps of dict items. -/
def dumpsObj : List (String × JVal) → String
  | [] => ""
  | [(k, v)] => "\"" ++ escJ k ++ "\": " ++ jsonDumps v
  | (k, v) :: t => "\"" ++ escJ k ++ "\": " ++ jsonDumps v ++ ", " ++ dumpsObj t

end

/-- Python json.dumps of a whole payload dictionary. -/
def dumpsPayload (p : Payload) : String := jsonDumps (.jobj p)

/-! ## app/services/diagnosis_validator.py -/

namespace DiagnosisValidator

/-- The age_restrictions pediatric_only disease list. -/
def pediatric_only_diseases : List String :=
  ["measles", "mumps", "chickenpox", "rsv", "rotavirus", "whooping_cough"]

/-- The age_restrictions adult_predominant disease list. -/
def adult_predominant_diseases : List String :=
  ["lung_cancer", "peptic_ulcer", "cholecystitis"]

/-- The age_restrictions elderly_risk disease list. -/
def elderly_risk_diseases : List String :=
  ["pneumonia", "tuberculosis"]

/-- Result shape of DiagnosisValidator.validate_diagnosis. -/
structure ValidationResult where
  is_valid : Bool
  confidence_score : ℚ
  warnings : List Payload
  recommendations : List String
  alternative_diagnoses : List String

/-- Disease-name normalization at the top of validate_diagnosis:
disease.lower().replace(" ", "_"). -/
def normDisease (s : String) : String :=
  String.mk ((lowerL s.data).map (fun c => if c = ' ' then '_' else c))

/-- Symptom normalization at the top of validate_diagnosis:
s.lower().strip(). -/
def normSymptom (s : String) : String := strStrip (strLower s)

/-- DiagnosisValidator._validate_age_compatibility: returns the warnings list
and the confidence multiplier. -/
def validate_age_compatibility (disease : String) (patient_age : Option Int) :
    List Payload × ℚ :=
  match patient_age with
  | none => ([], 1.0)
  | some age =>
    if disease ∈ pediatric_only_diseases then
      if age > 18 then
        ([[("type", .jstr "age_incompatibility"),
           ("severity", .jstr "warning"),
           ("message", .jstr (disease ++ " is uncommon in adults (age " ++ toString age ++
             "). This disease is primarily seen in children")),
           ("patient_age", .jnum (age : ℚ)),
           ("expected_age_range", .jstr "0-18")]], 0.3)
      else ([], 1.0)
    else if disease ∈ adult_predominant_diseases then
      if age < 18 then
        ([[("type", .jstr "age_incompatibility"),
           ("severity", .jstr "warning"),
           ("message", .jstr (disease ++ " is uncommon in children (age " ++ toString age ++
             "). This disease is more common in adults")),
           ("patient_age", .jnum (age : ℚ)),
           ("expected_age_range", .jstr "18+")]], 0.4)
      else ([], 1.0)
    else if disease ∈ elderly_risk_diseases then
      if age ≥ 65 then
        ([[("type", .jstr "age_risk_factor"),
           ("severity", .jstr "info"),
           ("message", .jstr (disease ++ " has higher risk and severity in elderly patients (age " ++
             toString age ++ "). Higher risk and severity in elderly patients")),
           ("patient_age", .jnum (age : ℚ))]], 1.0)
      else ([], 1.0)
    else ([], 1.0)

/-- One category row of the symptom_incompatibilities table.  The
warning_symptoms entry of the infectious category is never read by the
validator, so it is not modelled. -/
structure SymptomRule where
  diseases : List String
  required_symptoms : List String
  incompatible_symptoms : Option (List String)

/-- The symptom_incompatibilities table, in dict insertion order. -/
def symptom_incompatibilities : List (String × SymptomRule) :=
  [("respiratory_diseases",
    ⟨["tuberculosis", "pneumonia", "lung_cancer", "rsv", "whooping_cough"],
     ["cough", "shortness_of_breath", "chest_pain", "fever"],
     some ["diarrhea", "vomiting", "abdominal_pain"]⟩),
   ("gastrointestinal_diseases",
    ⟨["gastroenteritis", "appendicitis", "cholecystitis", "peptic_ulcer",
      "ulcerative_colitis", "hepatitis_a", "rotavirus"],
     ["abdominal_pain", "nausea", "vomiting", "diarrhea"],
     some ["cough", "shortness_of_breath"]⟩),
   ("infectious_diseases",
    ⟨["measles", "mumps", "chickenpox", "malaria", "tuberculosis", "hepatitis_a"],
     ["fever"],
     none⟩)]

/-- Accumulator mirroring the locals of _validate_symptom_compatibility. -/
structure SymState where
  warnings : List Payload
  confidence_multiplier : ℚ
  alternative_diagnoses : List String

/-- One iteration of the category loop in _validate_symptom_compatibility. -/
def symptomCategoryStep (disease : String) (symptoms : List String)
    (st : SymState) (cat : String × SymptomRule) : SymState :=
  let category := cat.1
  let rules := cat.2
  if disease ∈ rules.diseases then
    let st1 :=
      if ¬ rules.required_symptoms.any (fun r => r ∈ symptoms) then
        { st with
          warnings := st.warnings ++
            [[("type", .jstr "missing_required_symptoms"),
              ("severity", .jstr "warning"),
              ("message", .jstr (disease ++ " typically presents with symptoms like: " ++
                String.intercalate ", " rules.required_symptoms)),
              ("missing_symptoms", .jlist (rules.required_symptoms.map .jstr)),
              ("category", .jstr category)]],
          confidence_multiplier := st.confidence_multiplier * 0.6 }
      else st
    match rules.incompatible_symptoms with
    | none => st1
    | some inc =>
      let incompatible_present := symptoms.filter (fun s => s ∈ inc)
      if ¬ incompatible_present.isEmpty then
        let st2 :=
          { st1 with
            warnings := st1.warnings ++
              [([("type", JVal.jstr "incompatible_symptoms"),
                 ("severity", JVal.jstr "warning"),
                 ("message", JVal.jstr (disease ++ " rarely presents with: " ++
                   String.intercalate ", " incompatible_present)),
                 ("incompatible_symptoms", JVal.jlist (incompatible_present.map JVal.jstr)),
                 ("category", JVal.jstr category)] : Payload)],
            confidence_multiplier := st1.confidence_multiplier * 0.7 }
        let alts1 :=
          if "diarrhea" ∈ incompatible_present ∨ "vomiting" ∈ incompatible_present then
            ["gastroenteritis", "rotavirus", "appendicitis"]
          else []
        let alts2 :=
          if "cough" ∈ incompatible_present ∨ "shortness_of_breath" ∈ incompatible_present then
            ["pneumonia", "tuberculosis", "rsv"]
          else []
        { st2 with alternative_diagnoses := st2.alternative_diagnoses ++ alts1 ++ alts2 }
      else st1
  else st

/-- DiagnosisValidator._validate_symptom_compatibility. -/
def validate_symptom_compatibility (disease : String) (symptoms : List String) : SymState :=
  symptom_incompatibilities.foldl (symptomCategoryStep disease symptoms) ⟨[], 1.0, []⟩

/-- One row of the geographic_restrictions table.  The risk_factors entry of
the tuberculosis row is never read by the validator, so it is not modelled;
a missing travel_history_required key reads as the falsy default. -/
structure GeoRestriction where
  travel_history_required : Bool
  endemic_regions : List String
  message : String

/-- The geographic_restrictions table. -/
def geographic_restrictions : List (String × GeoRestriction) :=
  [("malaria",
    ⟨true, ["sub_saharan_africa", "southeast_asia", "south_america"],
     "Consider travel history to endemic areas"⟩),
   ("tuberculosis",
    ⟨false, [], "Consider TB risk factors and exposure history"⟩)]

/-- DiagnosisValidator._validate_geographic_factors: returns warnings and
recommendations. -/
def validate_geographic_factors (disease : String) (patient_data : Option Payload) :
    List Payload × List String :=
  let pd := patient_data.getD []
  match List.lookup disease geographic_restrictions with
  | none => ([], [])
  | some r =>
    if r.travel_history_required then
      let travel_history := (lookupKey "travel_history" pd).getD (.jlist [])
      if jFalsy travel_history ∨
          ¬ r.endemic_regions.any (fun reg => strIn reg (strLower (pyStr travel_history))) then
        ([[("type", .jstr "geographic_risk_factor"),
           ("severity", .jstr "info"),
           ("message", .jstr r.message),
           ("endemic_regions", .jlist (r.endemic_regions.map .jstr))]],
         ["Verify travel history to " ++ String.intercalate ", " r.endemic_regions])
      else ([], [])
    else ([], [])

/-- The severity_warnings high_severity list. -/
def severity_high_severity : List String :=
  ["appendicitis", "cholecystitis", "pneumonia", "lung_cancer"]

/-- The severity_warnings emergency_conditions list. -/
def severity_emergency_conditions : List String :=
  ["appendicitis", "severe_pneumonia"]

/-- The severity_warnings chronic_conditions list. -/
def severity_chronic_conditions : List String :=
  ["tuberculosis", "ulcerative_colitis", "lung_cancer"]

/-- The emergency_symptoms list local to _validate_severity_factors. -/
def emergency_symptoms : List String :=
  ["severe_pain", "high_fever", "difficulty_breathing", "severe_abdominal_pain"]

/-- DiagnosisValidator._validate_severity_factors: returns warnings and
recommendations. -/
def validate_severity_factors (disease : String) (symptoms : List String)
    (patient_age : Option Int) : List Payload × List String :=
  let w1r1 :=
    if disease ∈ severity_high_severity then
      ([[("type", .jstr "high_severity_disease"),
         ("severity", .jstr "info"),
         ("message", .jstr (disease ++ " is a serious condition requiring prompt medical attention")),
         ("disease", .jstr disease)]],
       ["Ensure appropriate follow-up and monitoring"])
    else (([] : List Payload), ([] : List String))
  let w2r2 :=
    if disease ∈ severity_emergency_conditions ∧
        emergency_symptoms.any (fun s => s ∈ symptoms) then
      ([[("type", .jstr "emergency_condition"),
         ("severity", .jstr "critical"),
         ("message", .jstr (disease ++ " with severe symptoms may require immediate medical intervention")),
         ("disease", .jstr disease)]],
       ["Consider immediate referral or emergency care"])
    else (([] : List Payload), ([] : List String))
  let r3 :=
    if disease ∈ severity_chronic_conditions then
      [disease ++ " requires long-term management and regular follow-up"]
    else []
  (w1r1.1 ++ w2r2.1, w1r1.2 ++ w2r2.2 ++ r3)

/-- A stage multiplier is applied to the running confidence only when the
stage produced at least one warning. -/
def appliedMultiplier (warnings : List Payload) (m : ℚ) : ℚ :=
  if warnings.isEmpty then 1 else m

/-- The locals of validate_diagnosis just before the final validity decision:
accumulated warnings, recommendations, alternatives and the compounded
confidence score before the 0.1 floor. -/
structure PipelineState where
  warnings : List Payload
  recommendations : List String
  alternative_diagnoses : List String
  raw_confidence : ℚ

/-- The body of validate_diagnosis up to (and excluding) the final validity
decision and flooring. -/
def diagnosis_pipeline (disease : String) (symptoms : List String)
    (patient_age : Option Int) (patient_data : Option Payload) : PipelineState :=
  let d := normDisease disease
  let syms := symptoms.map normSymptom
  let av := validate_age_compatibility d patient_age
  let sv := validate_symptom_compatibility d syms
  let gv := validate_geographic_factors d patient_data
  let ev := validate_severity_factors d syms patient_age
  { warnings := av.1 ++ sv.warnings ++ gv.1 ++ ev.1
    recommendations := (if gv.1.isEmpty then [] else gv.2) ++ (if ev.1.isEmpty then [] else ev.2)
    alternative_diagnoses := if sv.warnings.isEmpty then [] else sv.alternative_diagnoses
    raw_confidence :=
      appliedMultiplier av.1 av.2 * appliedMultiplier sv.warnings sv.confidence_multiplier }

/-- Test used to collect critical_warnings in validate_diagnosis. -/
def isCriticalWarning (w : Payload) : Bool :=
  match lookupKey "severity" w with
  | some (.jstr s) => s = "critical"
  | _ => false

/-- DiagnosisValidator.validate_diagnosis. -/
def validate_diagnosis (disease : String) (symptoms : List String)
    (patient_age : Option Int) (patient_data : Option Payload) : ValidationResult :=
  let st := diagnosis_pipeline disease symptoms patient_age patient_data
  let critical_warnings := st.warnings.filter isCriticalWarning
  { is_valid := if (¬ critical_warnings.isEmpty) ∨ st.raw_confidence < 0.3 then false else true
    confidence_score := max 0.1 st.raw_confidence
    warnings := st.warnings
    recommendations := st.recommendations
    alternative_diagnoses := st.alternative_diagnoses.dedup }

end DiagnosisValidator

/-! ## app/services/symptom_matcher.py -/

namespace SymptomMatcher

/-- The symptom_disease_map table: per-symptom disease weights, in dict
insertion order. -/
def symptom_disease_map : List (String × List (String × ℚ)) :=
  [("persistent_cough",
    [("tuberculosis", 0.8), ("pneumonia", 0.7), ("lung_cancer", 0.6), ("whooping_cough", 0.9)]),
   ("coughing_blood",
    [("tuberculosis", 0.9), ("lung_cancer", 0.8), ("pneumonia", 0.3)]),
   ("hemoptysis",
    [("tuberculosis", 0.9), ("lung_cancer", 0.8), ("pneumonia", 0.3)]),
   ("shortness_of_breath",
    [("pneumonia", 0.8), ("tuberculosis", 0.6), ("rsv", 0.7), ("lung_cancer", 0.5)]),
   ("chest_pain",
    [("pneumonia", 0.7), ("tuberculosis", 0.5), ("lung_cancer", 0.4)]),
   ("wheezing",
    [("rsv", 0.8), ("pneumonia", 0.4), ("whooping_cough", 0.6)]),
   ("whooping_sound",
    [("whooping_cough", 0.95)]),
   ("fever",
    [("malaria", 0.9), ("pneumonia", 0.8), ("tuberculosis", 0.7), ("measles", 0.8),
     ("mumps", 0.7), ("chickenpox", 0.8), ("rsv", 0.7), ("gastroenteritis", 0.6),
     ("appendicitis", 0.7), ("cholecystitis", 0.6), ("hepatitis_a", 0.7), ("whooping_cough", 0.5)]),
   ("chills",
    [("malaria", 0.9), ("pneumonia", 0.6), ("tuberculosis", 0.5)]),
   ("night_sweats",
    [("tuberculosis", 0.8), ("malaria", 0.6), ("lung_cancer", 0.4)]),
   ("weight_loss",
    [("tuberculosis", 0.8), ("lung_cancer", 0.7), ("ulcerative_colitis", 0.6)]),
   ("fatigue",
    [("tuberculosis", 0.6), ("hepatitis_a", 0.8), ("malaria", 0.7), ("lung_cancer", 0.5)]),
   ("diarrhea",
    [("gastroenteritis", 0.9), ("rotavirus", 0.8), ("ulcerative_colitis", 0.7)]),
   ("vomiting",
    [("gastroenteritis", 0.8), ("rotavirus", 0.8), ("appendicitis", 0.6), ("cholecystitis", 0.5)]),
   ("nausea",
    [("gastroenteritis", 0.7), ("appendicitis", 0.7), ("cholecystitis", 0.8), ("hepatitis_a", 0.6)]),
   ("abdominal_pain",
    [("appendicitis", 0.9), ("gastroenteritis", 0.7), ("cholecystitis", 0.8),
     ("peptic_ulcer", 0.8), ("ulcerative_colitis", 0.7)]),
   ("right_lower_quadrant_pain",
    [("appendicitis", 0.95)]),
   ("right_upper_quadrant_pain",
    [("cholecystitis", 0.9)]),
   ("epigastric_pain",
    [("peptic_ulcer", 0.8), ("gastroenteritis", 0.4)]),
   ("bloody_stool",
    [("ulcerative_colitis", 0.8), ("gastroenteritis", 0.3)]),
   ("jaundice",
    [("hepatitis_a", 0.9), ("cholecystitis", 0.4)]),
   ("rash",
    [("measles", 0.8), ("chickenpox", 0.9), ("mumps", 0.2)]),
   ("vesicular_rash",
    [("chickenpox", 0.95)]),
   ("maculopapular_rash",
    [("measles", 0.9)]),
   ("koplik_spots",
    [("measles", 0.98)]),
   ("headache",
    [("malaria", 0.7), ("measles", 0.5), ("mumps", 0.4)]),
   ("parotid_swelling",
    [("mumps", 0.95)]),
   ("sore_throat",
    [("measles", 0.4), ("mumps", 0.3)]),
   ("difficulty_feeding",
    [("rsv", 0.7), ("rotavirus", 0.5)]),
   ("irritability",
    [("rsv", 0.6), ("rotavirus", 0.5), ("measles", 0.4)])]

/-- The symptom_synonyms table, in dict insertion order. -/
def symptom_synonyms : List (String × List String) :=
  [("cough", ["coughing", "persistent_cough", "chronic_cough"]),
   ("fever", ["high_temperature", "pyrexia", "febrile"]),
   ("diarrhea", ["loose_stools", "watery_stools", "frequent_bowel_movements"]),
   ("vomiting", ["throwing_up", "emesis", "nausea_and_vomiting"]),
   ("headache", ["head_pain", "cephalgia"]),
   ("rash", ["skin_rash", "eruption", "skin_lesions"]),
   ("abdominal_pain", ["stomach_pain", "belly_pain", "tummy_ache"]),
   ("shortness_of_breath", ["dyspnea", "breathing_difficulty", "breathlessness"]),
   ("chest_pain", ["thoracic_pain", "chest_discomfort"]),
   ("weight_loss", ["losing_weight", "unintentional_weight_loss"]),
   ("night_sweats", ["nocturnal_sweating", "night_time_sweating"]),
   ("hemoptysis", ["coughing_blood", "blood_in_sputum", "bloody_cough"])]

/-- The disease_categories pediatric list. -/
def disease_categories_pediatric : List String :=
  ["measles", "mumps", "chickenpox", "rsv", "rotavirus", "whooping_cough"]

/-- Membership of a canonical symptom in symptom_disease_map. -/
def mapHasSymptom (s : String) : Bool :=
  (List.lookup s symptom_disease_map).isSome

/-- Normalization of a single raw symptom inside normalize_symptoms: exact
match against the map, then the synonym table, then partial (substring)
matching against canonical identifiers, else the lowered symptom itself. -/
def normalizeOne (symptom : String) : String :=
  let sl := strStrip (strLower symptom)
  if mapHasSymptom sl then sl
  else
    match symptom_synonyms.find? (fun p => sl ∈ p.2 ∨ p.2.any (fun syn => strIn syn sl)) with
    | some p => p.1
    | none =>
      match (symptom_disease_map.map Prod.fst).find?
          (fun canonical => strIn canonical sl ∨ strIn sl canonical) with
      | some c => c
      | none => sl

/-- SymptomMatcher.normalize_symptoms.  The source deduplicates through
list(set(...)), whose order is unspecified; first-occurrence order is used
here, and no property proved below depends on the order. -/
def normalize_symptoms (symptoms : List String) : List String :=
  (symptoms.map normalizeOne).dedup

/-- defaultdict accumulation: disease_scores[d] += w, inserting on first
touch. -/
def bump : List (String × ℚ) → String → ℚ → List (String × ℚ)
  | [], d, w => [(d, w)]
  | (d2, v) :: t, d, w => if d2 = d then (d2, v + w) :: t else (d2, v) :: bump t d w

/-- Accumulate the per-disease weights of one normalized symptom. -/
def addSymptom (acc : List (String × ℚ)) (s : String) : List (String × ℚ) :=
  match List.lookup s symptom_disease_map with
  | none => acc
  | some entries => entries.foldl (fun a p => bump a p.1 p.2) acc

/-- In-place multiplication at a key when present (dict update, no insert). -/
def scaleKey (d : String) (f : ℚ) : List (String × ℚ) → List (String × ℚ)
  | [] => []
  | (d2, v) :: t => if d2 = d then (d2, v * f) :: t else (d2, v) :: scaleKey d f t

/-- SymptomMatcher._apply_age_adjustments. -/
def apply_age_adjustments (scores : List (String × ℚ)) (age : Int) : List (String × ℚ) :=
  let s1 :=
    if age < 18 then
      disease_categories_pediatric.foldl (fun a d => scaleKey d 1.5 a) scores
    else scores
  let s2 :=
    if age > 40 then
      ["lung_cancer", "peptic_ulcer", "cholecystitis"].foldl (fun a d => scaleKey d 1.2 a) s1
    else s1
  if age > 65 then
    ["pneumonia", "lung_cancer"].foldl (fun a d => scaleKey d 1.3 a) s2
  else s2

/-- Python max over the values of a nonempty dict (0 for the empty dict,
which the source never reaches because of its truthiness guard). -/
def maxVal : List ℚ → ℚ
  | [] => 0
  | x :: t => t.foldl max x

/-- SymptomMatcher.calculate_disease_scores. -/
def calculate_disease_scores (symptoms : List String) (patient_age : Option Int) :
    List (String × ℚ) :=
  let normalized_symptoms := normalize_symptoms symptoms
  let disease_scores := normalized_symptoms.foldl addSymptom []
  let disease_scores :=
    match patient_age with
    | none => disease_scores
    | some age => apply_age_adjustments disease_scores age
  if ¬ disease_scores.isEmpty then
    let max_score := maxVal (disease_scores.map Prod.snd)
    if max_score > 0 then
      disease_scores.map (fun p => (p.1, p.2 / max_score))
    else disease_scores
  else disease_scores

/-- The accumulator of calculate_disease_scores after the optional age
adjustment, named for the proofs below. -/
def scoresAfterAge (symptoms : List String) (patient_age : Option Int) :
    List (String × ℚ) :=
  match patient_age with
  | none => (normalize_symptoms symptoms).foldl addSymptom []
  | some age => apply_age_adjustments ((normalize_symptoms symptoms).foldl addSymptom []) age

/-- All accumulator values are positive (proof invariant). -/
def AllPos (l : List (String × ℚ)) : Prop := ∀ p ∈ l, 0 < p.2

/-- One fold step over the weight entries of a symptom (proof abbreviation
for the inner foldl of addSymptom). -/
def bumpFold (acc : List (String × ℚ)) (entries : List (String × ℚ)) : List (String × ℚ) :=
  entries.foldl (fun a p => bump a p.1 p.2) acc

end SymptomMatcher

/-! ## app/services/llm_response_validator.py -/

namespace LLMResponseValidator

/-- The dangerous_patterns list.  Each pattern is a regex literal with no
metacharacters, so matching is case-insensitive substring search. -/
def dangerous_patterns : List String :=
  ["ignore medical advice", "don\x27t see a doctor", "avoid medical treatment",
   "self-medicate", "home surgery", "dangerous dosage", "experimental treatment",
   "unproven cure"]

/-- The required_fields list. -/
def required_fields : List String :=
  ["primary_diagnosis", "confidence_score", "recommended_investigations",
   "immediate_management", "red_flags", "referral_criteria"]

/-- The safety_keywords list. -/
def safety_keywords : List String :=
  ["emergency", "urgent", "immediate", "critical", "life-threatening",
   "severe", "acute", "shock", "unconscious", "bleeding", "seizure"]

/-- Result object of LLMResponseValidator.validate_response. -/
structure ValidationResult where
  is_valid : Bool
  confidence_score : ℚ
  warnings : List String
  errors : List String
  safety_flags : List String
  quality_score : ℚ
  recommendations : List String

/-- The freshly constructed ValidationResult. -/
def initResult : ValidationResult := ⟨true, 1.0, [], [], [], 1.0, []⟩

/-- Python response.get(k, default) on a possibly non-dict value;
AttributeError on a non-dict. -/
def jGet (v : JVal) (k : String) (dflt : JVal) : Except String JVal :=
  match v with
  | .jobj l => .ok ((lookupKey k l).getD dflt)
  | _ => .error "AttributeError"

/-- Python response[k] indexing; TypeError or KeyError when it raises. -/
def jGetItem (v : JVal) (k : String) : Except String JVal :=
  match v with
  | .jobj l =>
    match lookupKey k l with
    | some x => .ok x
    | none => .error "KeyError"
  | _ => .error "TypeError"

/-- Python membership k in v: key lookup on a dict, substring on a string,
element equality on a list, TypeError otherwise. -/
def jInKey (k : String) (v : JVal) : Except String Bool :=
  match v with
  | .jobj l => .ok (hasKey k l)
  | .jstr s => .ok (strIn k s)
  | .jlist l =>
    .ok (l.any fun e =>
      match e with
      | .jstr s => s = k
      | _ => false)
  | _ => .error "TypeError"

/-- Python len(v); TypeError on numbers and None. -/
def jLen (v : JVal) : Except String ℕ :=
  match v with
  | .jstr s => .ok s.data.length
  | .jlist l => .ok l.length
  | .jobj l => .ok l.length
  | _ => .error "TypeError"

/-- LLMResponseValidator._validate_structure. -/
def validate_structure (response : JVal) (r : ValidationResult) : ValidationResult :=
  match response with
  | .jobj l =>
    let missing_fields := required_fields.filter (fun f => ¬ hasKey f l)
    let r1 :=
      if ¬ missing_fields.isEmpty then
        { r with
          warnings := r.warnings ++
            ["Missing recommended fields: " ++ String.intercalate ", " missing_fields],
          quality_score := r.quality_score * 0.8 }
      else r
    match lookupKey "confidence_score" l with
    | none => r1
    | some v =>
      match toNumQ v with
      | some q =>
        if q < 0 ∨ q > 1 then
          { r1 with errors := r1.errors ++ ["Invalid confidence score format (must be 0.0-1.0)"] }
        else r1
      | none =>
        { r1 with errors := r1.errors ++ ["Invalid confidence score format (must be 0.0-1.0)"] }
  | _ => { r with errors := r.errors ++ ["Response is not a valid JSON object"] }

/-- LLMResponseValidator._validate_safety. -/
def validate_safety (response : JVal) (r : ValidationResult) : ValidationResult :=
  let response_text := strLower (jsonDumps response)
  let r1 := dangerous_patterns.foldl
    (fun acc pat =>
      if strIn pat response_text then
        { acc with
          safety_flags := acc.safety_flags ++ ["Potentially dangerous advice detected: " ++ pat],
          quality_score := acc.quality_score * 0.5 }
      else acc) r
  let emergency_count := (safety_keywords.filter (fun k => strIn k response_text)).length
  if emergency_count ≥ 3 then
    { r1 with
      warnings := r1.warnings ++
        ["High emergency indicator count - ensure appropriate urgency level"] }
  else r1

/-- LLMResponseValidator._validate_age_appropriateness. -/
def validate_age_appropriateness (response : JVal) (patient_age : Int)
    (r : ValidationResult) : ValidationResult :=
  let response_text := strLower (jsonDumps response)
  let r1 :=
    if patient_age < 18 then
      ["aspirin", "tetracycline", "quinolone", "warfarin"].foldl
        (fun acc med =>
          if strIn med response_text then
            { acc with
              warnings := acc.warnings ++
                ["Adult medication \x27" ++ med ++ "\x27 mentioned for pediatric patient"] }
          else acc) r
    else r
  if patient_age > 65 then
    ["benzodiazepine", "anticholinergic", "high-dose nsaid"].foldl
      (fun acc med =>
        if strIn med response_text then
          { acc with
            warnings := acc.warnings ++
              ["High-risk medication \x27" ++ med ++ "\x27 for elderly patient"] }
        else acc) r1
  else r1

/-- The disease relationship groups of _are_diseases_related. -/
def disease_groups : List (List String) :=
  [["pneumonia", "tuberculosis", "lung_cancer", "bronchitis", "asthma"],
   ["gastroenteritis", "appendicitis", "cholecystitis", "peptic_ulcer", "hepatitis"],
   ["measles", "mumps", "chickenpox", "rsv", "rotavirus", "whooping_cough"]]

/-- LLMResponseValidator._are_diseases_related. -/
def are_diseases_related (disease1 disease2 : String) : Bool :=
  disease_groups.any (fun g => disease1 ∈ g ∧ disease2 ∈ g)

/-- LLMResponseValidator._validate_disease_appropriateness.  Raises when the
response is not a dict, or when a primary_diagnosis dict carries a non-string
disease_name (str.lower on a non-string). -/
def validate_disease_appropriateness (response : JVal) (disease_type : String)
    (r : ValidationResult) : Except String ValidationResult := do
  let raw ← jGet response "primary_diagnosis" (.jstr "")
  let primary_diagnosis ←
    match raw with
    | .jobj l =>
      match (lookupKey "disease_name" l).getD (.jstr "") with
      | .jstr s => Except.ok (strLower s)
      | _ => Except.error "AttributeError"
    | v => Except.ok (strLower (pyStr v))
  let disease_type_lower := strLower disease_type
  if ¬ strIn disease_type_lower primary_diagnosis ∧
      ¬ are_diseases_related disease_type_lower primary_diagnosis then
    pure { r with
      warnings := r.warnings ++
        ["Primary diagnosis \x27" ++ primary_diagnosis ++
          "\x27 differs significantly from suspected \x27" ++ disease_type ++ "\x27"],
      confidence_score := r.confidence_score * 0.8 }
  else
    pure r

/-- LLMResponseValidator._validate_symptom_consistency. -/
def validate_symptom_consistency (response : JVal) (symptoms : List String)
    (r : ValidationResult) : ValidationResult :=
  if symptoms.isEmpty then r
  else
    let response_text := strLower (jsonDumps response)
    let symptom_mentions := (symptoms.filter (fun s => strIn (strLower s) response_text)).length
    let symptom_coverage : ℚ := (symptom_mentions : ℚ) / (symptoms.length : ℚ)
    if symptom_coverage < 0.3 then
      { r with
        warnings := r.warnings ++
          ["Low symptom coverage in response - may not address patient\x27s presentation"],
        quality_score := r.quality_score * 0.7 }
    else r

/-- LLMResponseValidator._validate_confidence.  The confidence defaults to
0.5 when the key is absent; a non-numeric confidence raises on comparison. -/
def validate_confidence (response : JVal) (r : ValidationResult) :
    Except String ValidationResult := do
  let confidence ← jGet response "confidence_score" (.jnum 0.5)
  match toNumQ confidence with
  | none => Except.error "TypeError"
  | some q =>
    if q < 0.1 then
      pure { r with
        errors := r.errors ++ ["Confidence too low (" ++ numLit q ++ ") - response unreliable"] }
    else if q < 0.4 then
      pure { r with warnings := r.warnings ++ ["Low confidence - consider additional assessment"] }
    else if q > 0.8 then do
      let reasoning ← jGet response "clinical_reasoning" (.jstr "")
      let n ← jLen reasoning
      if n < 100 then
        pure { r with warnings := r.warnings ++ ["High confidence with insufficient reasoning"] }
      else pure r
    else pure r

/-- LLMResponseValidator._assess_quality. -/
def assess_quality (response : JVal) (r : ValidationResult) :
    Except String ValidationResult := do
  let completeness_count ← required_fields.foldlM
    (fun acc f => do
      let b ← jInKey f response
      pure (acc + if b then 1 else 0)) (0 : ℕ)
  let field_completeness : ℚ := (completeness_count : ℚ) / (required_fields.length : ℚ)
  let reasoning ← jGet response "clinical_reasoning" (.jstr "")
  let rlen ← jLen reasoning
  let reasoning_quality : ℚ := min ((rlen : ℚ) / 200) 1.0
  let differentials ← jGet response "differential_diagnoses" (.jlist [])
  let dlen ← jLen differentials
  let differential_quality : ℚ := min ((dlen : ℚ) / 3) 1.0
  let base_quality := (field_completeness + reasoning_quality + differential_quality) / 3
  pure { r with quality_score := min r.quality_score base_quality }

/-- LLMResponseValidator._generate_recommendations. -/
def generate_recommendations (r : ValidationResult) : ValidationResult :=
  let r1 :=
    if ¬ r.safety_flags.isEmpty then
      { r with recommendations := r.recommendations ++ ["Review safety concerns before using response"] }
    else r
  let r2 :=
    if r1.quality_score < 0.5 then
      { r1 with recommendations := r1.recommendations ++ ["Consider regenerating response or using fallback"] }
    else r1
  let r3 :=
    if r2.warnings.length > 3 then
      { r2 with recommendations := r2.recommendations ++ ["Multiple warnings detected - manual review recommended"] }
    else r2
  if r3.confidence_score < 0.4 then
    { r3 with recommendations := r3.recommendations ++ ["Low confidence - seek additional clinical input"] }
  else r3

/-- The except handler of validate_response: mark invalid, record the failure
and zero the quality, keeping the mutations made before the raise. -/
def failResult (r : ValidationResult) (e : String) : ValidationResult :=
  { r with
    is_valid := false,
    errors := r.errors ++ ["Validation process failed: " ++ e],
    quality_score := 0.0 }

/-- LLMResponseValidator.validate_response. -/
def validate_response (llm_response : JVal) (disease_type : String)
    (symptoms : List String) (patient_age : Option Int) : ValidationResult :=
  let r1 := validate_structure llm_response initResult
  let r2 := validate_safety llm_response r1
  let r3 :=
    match patient_age with
    | none => r2
    | some a => validate_age_appropriateness llm_response a r2
  match validate_disease_appropriateness llm_response disease_type r3 with
  | .error e => failResult r3 e
  | .ok r4 =>
    let r5 := validate_symptom_consistency llm_response symptoms r4
    match validate_confidence llm_response r5 with
    | .error e => failResult r5 e
    | .ok r6 =>
      match assess_quality llm_response r6 with
      | .error e => failResult r6 e
      | .ok r7 =>
        let r8 := generate_recommendations r7
        { r8 with is_valid := if r8.errors.isEmpty ∧ r8.quality_score ≥ 0.3 then true else false }

/-- The replacement text used by sanitize_response. -/
def removedText : String := "[REMOVED: UNSAFE ADVICE]"

/-- Worker for the case-insensitive literal re.sub: skip counts characters of
a match that remain to be consumed without being re-emitted. -/
def substAux (p R : List Char) : ℕ → List Char → List Char
  | _, [] => []
  | n + 1, _ :: t => substAux p R n t
  | 0, c :: t =>
    if p ≠ [] ∧ prefB (lowerL p) (lowerL (c :: t)) then
      R ++ substAux p R (p.length - 1) t
    else
      c :: substAux p R 0 t

/-- Case-insensitive literal re.sub: replace every non-overlapping,
leftmost-first occurrence of p by R. -/
def substCi (p R : List Char) (t : List Char) : List Char := substAux p R 0 t

/-- Sequential re.sub of every dangerous pattern over one string field. -/
def sanitizeText (content : String) : String :=
  dangerous_patterns.foldl
    (fun c pat => String.mk (substCi pat.data removedText.data c.data)) content

/-- One iteration of the field loop of sanitize_response. -/
def sanitizeField (p : Payload) (field : String) : Payload :=
  match lookupKey field p with
  | some (.jstr s) => setKey field (.jstr (sanitizeText s)) p
  | _ => p

/-- The final confidence clamp of sanitize_response: an out-of-range or
non-numeric confidence_score is replaced by the safe default 0.5. -/
def clampConfidence (sanitized : Payload) : Payload :=
  match lookupKey "confidence_score" sanitized with
  | none => sanitized
  | some v =>
    match toNumQ v with
    | some q =>
      if q < 0 ∨ q > 1 then setKey "confidence_score" (.jnum 0.5) sanitized else sanitized
    | none => setKey "confidence_score" (.jnum 0.5) sanitized

/-- LLMResponseValidator.sanitize_response. -/
def sanitize_response (response : Payload) : Payload :=
  clampConfidence
    (["immediate_management", "patient_education", "clinical_reasoning"].foldl
      sanitizeField response)

/-- Presence of any dangerous-advice pattern anywhere in a payload, using the
same serialized case-insensitive scan as _validate_safety. -/
def hasUnsafeContent (p : Payload) : Bool :=
  dangerous_patterns.any (fun pat => strIn pat (strLower (dumpsPayload p)))

/-- A concrete LLM response payload with every required field except
confidence_score. -/
def c6payload : Payload :=
  [("primary_diagnosis", JVal.jstr "malaria"),
   ("recommended_investigations", JVal.jstr "blood film microscopy"),
   ("immediate_management", JVal.jstr "antimalarial therapy"),
   ("red_flags", JVal.jstr "none"),
   ("referral_criteria", JVal.jstr "none"),
   ("clinical_reasoning", JVal.jstr "clinical features consistent with malaria")]

/-- The validation state of c6payload after structure validation. -/
def c6r1 : ValidationResult := validate_structure (JVal.jobj c6payload) initResult

/-- The validation state of c6payload after quality assessment. -/
def c6r6 : ValidationResult :=
  { c6r1 with
    quality_score :=
      min c6r1.quality_score
        ((((5 : ℕ) : ℚ) / ((6 : ℕ) : ℚ) + min (((41 : ℕ) : ℚ) / 200) 1.0 +
          min (((0 : ℕ) : ℚ) / 3) 1.0) / 3) }

end LLMResponseValidator

/-! ## app/services/llm_service.py -/

namespace LLMService

open LLMResponseValidator in
/-- One of the conditional enhancement copies at the end of
combine_ml_and_llm_results: if src is in llm_analysis, copy its value to the
dst key of the enhanced result. -/
def copyEnhancement (llm_analysis : JVal) (src dst : String) (p : Payload) :
    Except String Payload := do
  let b ← jInKey src llm_analysis
  if b then do
    let v ← jGetItem llm_analysis src
    pure (setKey dst v p)
  else pure p

open LLMResponseValidator in
/-- The try body of LLMService.combine_ml_and_llm_results. -/
def combineTry (traditional_result llm_result : Payload) : Except String Payload := do
  let e1 := setKey "llm_enhanced" (.jbool true) traditional_result
  let e2 := setKey "enhancement_status" (.jstr "Successfully enhanced with LLM analysis") e1
  let llm_analysis := (lookupKey "analysis" llm_result).getD (.jobj llm_result)
  let e3 := setKey "llm_analysis" llm_analysis e2
  let hasConf ← jInKey "confidence_score" llm_analysis
  let e4 ←
    if hasConf then do
      let mlv := (lookupKey "confidence" traditional_result).getD (.jnum 0.0)
      let lcv ← jGetItem llm_analysis "confidence_score"
      match toNumQ mlv, toNumQ lcv with
      | some ml_confidence, some llm_confidence =>
        pure (setKey "confidence" (.jnum (ml_confidence * 0.6 + llm_confidence * 0.4)) e3)
      | _, _ => Except.error "TypeError"
    else pure e3
  let e5 ← copyEnhancement llm_analysis "diagnosis" "enhanced_diagnosis" e4
  let e6 ← copyEnhancement llm_analysis "differential_diagnoses" "differential_diagnoses" e5
  let e7 ← copyEnhancement llm_analysis "risk_level" "risk_level" e6
  let e8 ← copyEnhancement llm_analysis "red_flags" "red_flags" e7
  let e9 ← copyEnhancement llm_analysis "treatment_recommendations" "enhanced_treatment" e8
  copyEnhancement llm_analysis "clinical_reasoning" "clinical_reasoning" e9

/-- LLMService.combine_ml_and_llm_results, including its except handler
(which mutates and returns the traditional result). -/
def combine_ml_and_llm_results (traditional_result llm_result : Payload) : Payload :=
  match combineTry traditional_result llm_result with
  | .ok res => res
  | .error e =>
    setKey "enhancement_status" (.jstr ("Failed to combine results: " ++ e))
      (setKey "llm_enhanced" (.jbool false) traditional_result)

end LLMService

/-! ## app/ml/enhanced_diagnostic_engine.py -/

namespace EnhancedDiagnosticEngine

/-- One entry of the differential_diagnoses list built by
predict_with_confidence. -/
structure DiffEntry where
  disease_code : String
  disease_name : String
  confidence : ℚ
  rank : ℕ

/-- Descending order on probability indices: np.argsort followed by [::-1].
Ties keep the smaller index first; every property proved below is
independent of the tie order. -/
def diffOrder (prob : List ℚ) (i j : ℕ) : Prop :=
  prob.getD j 0 < prob.getD i 0 ∨ (prob.getD i 0 = prob.getD j 0 ∧ i ≤ j)

instance (prob : List ℚ) : DecidableRel (diffOrder prob) := fun i j => by
  unfold diffOrder
  infer_instance

/-- Indices of the combined distribution sorted by descending probability. -/
def argsortDesc (prob : List ℚ) : List ℕ :=
  (List.range prob.length).insertionSort (diffOrder prob)

/-- The differential loop body: enumerate(top_indices[1:]), skipping classes
whose looked-up display name is falsy, with rank i + 2. -/
def diffLoop (nameOf : String → Option String) (classes : List String) (prob : List ℚ) :
    List ℕ → ℕ → List DiffEntry
  | [], _ => []
  | idx :: rest, i =>
    match nameOf (classes.getD idx "") with
    | some n =>
      if n ≠ "" then
        ⟨classes.getD idx "", n, prob.getD idx 0, i + 2⟩ ::
          diffLoop nameOf classes prob rest (i + 1)
      else diffLoop nameOf classes prob rest (i + 1)
    | none => diffLoop nameOf classes prob rest (i + 1)

/-- The differential_diagnoses list of predict_with_confidence, parameterized
by the display-name lookup _get_disease_name. -/
def differential_diagnoses (nameOf : String → Option String) (classes : List String)
    (prob : List ℚ) : List DiffEntry :=
  diffLoop nameOf classes prob ((argsortDesc prob).drop 1) 0

/-- The additive smoothing constant 1e-10 of _calculate_uncertainty. -/
noncomputable def epsSmooth : ℝ := 1 / 10 ^ 10

/-- One term of the smoothed entropy sum. -/
noncomputable def entropyTerm (x : ℝ) : ℝ := x * Real.log (x + epsSmooth)

/-- EnhancedDiagnosticEngine._calculate_uncertainty, uncertainty component:
the smoothed Shannon entropy of the combined distribution divided by the
log of the class count. -/
noncomputable def uncertaintyScore (prob : List ℝ) : ℝ :=
  (-(prob.map entropyTerm).sum) / Real.log (prob.length : ℝ)

end EnhancedDiagnosticEngine

/-! ## Supporting lemmas: diagnosis validator -/

namespace DiagnosisValidator

theorem validate_age_compatibility_snd_bounds (d : String) (a : Option Int) :
    0 < (validate_age_compatibility d a).2 ∧ (validate_age_compatibility d a).2 ≤ 1 := by
  unfold validate_age_compatibility
  cases a with
  | none => norm_num
  | some age =>
    dsimp only
    simp only [apply_ite Prod.snd]
    split_ifs <;> norm_num

theorem symptomCategoryStep_cm_bounds (d : String) (syms : List String)
    (st : SymState) (cat : String × SymptomRule)
    (h0 : 0 < st.confidence_multiplier) (h1 : st.confidence_multiplier ≤ 1) :
    0 < (symptomCategoryStep d syms st cat).confidence_multiplier ∧
      (symptomCategoryStep d syms st cat).confidence_multiplier ≤ 1 := by
  rcases cat with ⟨category, rules⟩
  rcases hinc : rules.incompatible_symptoms with _ | inc <;>
    simp only [symptomCategoryStep, hinc] <;>
    split_ifs <;>
    refine ⟨?_, ?_⟩ <;>
    (try dsimp only) <;>
    nlinarith [h0, h1]

theorem symFold_cm_bounds (d : String) (syms : List String) :
    ∀ (cats : List (String × SymptomRule)) (st : SymState),
      0 < st.confidence_multiplier → st.confidence_multiplier ≤ 1 →
      0 < (cats.foldl (symptomCategoryStep d syms) st).confidence_multiplier ∧
        (cats.foldl (symptomCategoryStep d syms) st).confidence_multiplier ≤ 1 := by
  intro cats
  induction cats with
  | nil => intro st h0 h1; exact ⟨h0, h1⟩
  | cons c rest ih =>
    intro st h0 h1
    have hc := symptomCategoryStep_cm_bounds d syms st c h0 h1
    exact ih (symptomCategoryStep d syms st c) hc.1 hc.2

theorem validate_symptom_compatibility_cm_bounds (d : String) (syms : List String) :
    0 < (validate_symptom_compatibility d syms).confidence_multiplier ∧
      (validate_symptom_compatibility d syms).confidence_multiplier ≤ 1 := by
  unfold validate_symptom_compatibility
  exact symFold_cm_bounds d syms symptom_incompatibilities ⟨[], 1.0, []⟩ (by norm_num) (by norm_num)

theorem appliedMultiplier_bounds (w : List Payload) (m : ℚ)
    (h0 : 0 < m) (h1 : m ≤ 1) :
    0 < appliedMultiplier w m ∧ appliedMultiplier w m ≤ 1 := by
  unfold appliedMultiplier
  split_ifs
  · norm_num
  · exact ⟨h0, h1⟩

theorem appliedMultiplier_cons (w : Payload) (ws : List Payload) (m : ℚ) :
    appliedMultiplier (w :: ws) m = m := rfl

theorem appliedMultiplier_nil (m : ℚ) : appliedMultiplier [] m = 1 := rfl

theorem raw_confidence_eq (disease : String) (symptoms : List String)
    (patient_age : Option Int) (patient_data : Option Payload) :
    (diagnosis_pipeline disease symptoms patient_age patient_data).raw_confidence =
      appliedMultiplier (validate_age_compatibility (normDisease disease) patient_age).1
        (validate_age_compatibility (normDisease disease) patient_age).2 *
        appliedMultiplier
          (validate_symptom_compatibility (normDisease disease) (symptoms.map normSymptom)).warnings
          (validate_symptom_compatibility (normDisease disease) (symptoms.map normSymptom)).confidence_multiplier := rfl

theorem raw_confidence_bounds (disease : String) (symptoms : List String)
    (patient_age : Option Int) (patient_data : Option Payload) :
    0 < (diagnosis_pipeline disease symptoms patient_age patient_data).raw_confidence ∧
      (diagnosis_pipeline disease symptoms patient_age patient_data).raw_confidence ≤ 1 := by
  rw [raw_confidence_eq]
  have ha := validate_age_compatibility_snd_bounds (normDisease disease) patient_age
  have ha2 := appliedMultiplier_bounds (validate_age_compatibility (normDisease disease) patient_age).1
    (validate_age_compatibility (normDisease disease) patient_age).2 ha.1 ha.2
  have hs := validate_symptom_compatibility_cm_bounds (normDisease disease) (symptoms.map normSymptom)
  have hs2 := appliedMultiplier_bounds
    (validate_symptom_compatibility (normDisease disease) (symptoms.map normSymptom)).warnings
    (validate_symptom_compatibility (normDisease disease) (symptoms.map normSymptom)).confidence_multiplier
    hs.1 hs.2
  exact ⟨mul_pos ha2.1 hs2.1, by nlinarith [ha2.1, ha2.2, hs2.1, hs2.2]⟩

theorem confidence_score_eq (disease : String) (symptoms : List String)
    (patient_age : Option Int) (patient_data : Option Payload) :
    (validate_diagnosis disease symptoms patient_age patient_data).confidence_score =
      max 0.1 (diagnosis_pipeline disease symptoms patient_age patient_data).raw_confidence := rfl

theorem warnings_eq (disease : String) (symptoms : List String)
    (patient_age : Option Int) (patient_data : Option Payload) :
    (validate_diagnosis disease symptoms patient_age patient_data).warnings =
      (validate_age_compatibility (normDisease disease) patient_age).1 ++
        (validate_symptom_compatibility (normDisease disease) (symptoms.map normSymptom)).warnings ++
        (validate_geographic_factors (normDisease disease) patient_data).1 ++
        (validate_severity_factors (normDisease disease) (symptoms.map normSymptom) patient_age).1 := rfl

theorem isCriticalWarning_iff (w : Payload) :
    isCriticalWarning w = true ↔ lookupKey "severity" w = some (JVal.jstr "critical") := by
  unfold isCriticalWarning
  cases h : lookupKey "severity" w with
  | none => simp
  | some v => cases v <;> simp

end DiagnosisValidator

/-! ## Claim theorems: C1, C2, C3, C10 -/

open DiagnosisValidator in
/-- C1: for every disease string, symptom list, optional integer age and
optional patient-data mapping, validate_diagnosis (a total function here, so
it never raises) returns a ValidationResult whose confidence_score lies in
the interval from 0.1 to 1.0. -/
theorem C1_validate_diagnosis_confidence_in_range (disease : String)
    (symptoms : List String) (patient_age : Option Int) (patient_data : Option Payload) :
    (0.1 : ℚ) ≤ (validate_diagnosis disease symptoms patient_age patient_data).confidence_score ∧
      (validate_diagnosis disease symptoms patient_age patient_data).confidence_score ≤ 1 := by
  rw [confidence_score_eq]
  constructor
  · exact le_max_left _ _
  · exact max_le (by norm_num)
      (raw_confidence_bounds disease symptoms patient_age patient_data).2

open DiagnosisValidator in
/-- C3: the returned is_valid is false exactly when some returned warning has
severity critical or the compounded confidence multiplier (the product of the
applied category penalties, taken before the 0.1 floor) is below 0.3. -/
theorem C3_validity_decision (disease : String) (symptoms : List String)
    (patient_age : Option Int) (patient_data : Option Payload) :
    ((validate_diagnosis disease symptoms patient_age patient_data).is_valid = false) ↔
      ((∃ w ∈ (validate_diagnosis disease symptoms patient_age patient_data).warnings,
          lookupKey "severity" w = some (JVal.jstr "critical")) ∨
        (diagnosis_pipeline disease symptoms patient_age patient_data).raw_confidence < 0.3) := by
  have hval : (validate_diagnosis disease symptoms patient_age patient_data).is_valid =
      (if (¬ ((diagnosis_pipeline disease symptoms patient_age patient_data).warnings.filter
            isCriticalWarning).isEmpty) ∨
          (diagnosis_pipeline disease symptoms patient_age patient_data).raw_confidence < 0.3
        then false else true) := rfl
  have hw : (validate_diagnosis disease symptoms patient_age patient_data).warnings =
      (diagnosis_pipeline disease symptoms patient_age patient_data).warnings := rfl
  have hcrit : (¬ (((diagnosis_pipeline disease symptoms patient_age patient_data).warnings.filter
        isCriticalWarning).isEmpty = true)) ↔
      ∃ w ∈ (diagnosis_pipeline disease symptoms patient_age patient_data).warnings,
        lookupKey "severity" w = some (JVal.jstr "critical") := by
    rw [List.isEmpty_iff, List.filter_eq_nil_iff]
    push_neg
    constructor
    · rintro ⟨w, hmem, hc⟩
      exact ⟨w, hmem, (isCriticalWarning_iff w).mp (by simpa using hc)⟩
    · rintro ⟨w, hmem, hc⟩
      exact ⟨w, hmem, by simpa using (isCriticalWarning_iff w).mpr hc⟩
  have hite : ∀ (c : Prop) (inst : Decidable c), ((if c then false else true) = false ↔ c) := by
    intro c inst
    split_ifs with h <;> simp [h]
  rw [hval, hw, hite]
  exact or_congr hcrit Iff.rfl

open DiagnosisValidator in
/-- C2: assigning any pediatric_only disease to a 45-year-old always yields at
least one warning-severity entry and a confidence_score of at most 0.4. -/
theorem C2_pediatric_disease_at_45 (disease : String) (symptoms : List String)
    (patient_data : Option Payload)
    (hd : normDisease disease ∈ pediatric_only_diseases) :
    (∃ w ∈ (validate_diagnosis disease symptoms (some 45) patient_data).warnings,
        lookupKey "severity" w = some (JVal.jstr "warning")) ∧
      (validate_diagnosis disease symptoms (some 45) patient_data).confidence_score ≤ 0.4 := by
  have hage : validate_age_compatibility (normDisease disease) (some 45) =
      ([[("type", JVal.jstr "age_incompatibility"),
         ("severity", JVal.jstr "warning"),
         ("message", JVal.jstr (normDisease disease ++ " is uncommon in adults (age " ++
           toString (45 : Int) ++ "). This disease is primarily seen in children")),
         ("patient_age", JVal.jnum ((45 : Int) : ℚ)),
         ("expected_age_range", JVal.jstr "0-18")]], 0.3) := by
    unfold validate_age_compatibility
    dsimp only
    rw [if_pos hd, if_pos (by norm_num : (45 : Int) > 18)]
  constructor
  · rw [warnings_eq, hage]
    dsimp only
    refine ⟨_, List.mem_append_left _ (List.mem_append_left _
      (List.mem_append_left _ (List.mem_singleton_self _))), ?_⟩
    rfl
  · rw [confidence_score_eq]
    refine max_le (by norm_num) ?_
    rw [raw_confidence_eq, hage]
    dsimp only
    rw [appliedMultiplier_cons]
    have hs := validate_symptom_compatibility_cm_bounds (normDisease disease)
      (symptoms.map normSymptom)
    have hs2 := appliedMultiplier_bounds
      (validate_symptom_compatibility (normDisease disease) (symptoms.map normSymptom)).warnings
      (validate_symptom_compatibility (normDisease disease) (symptoms.map normSymptom)).confidence_multiplier
      hs.1 hs.2
    nlinarith [hs2.1, hs2.2]

/-- Witness for C2 at disease measles, symptoms [fever], age 45. -/
theorem C2_witness :
    DiagnosisValidator.normDisease "measles" ∈ DiagnosisValidator.pediatric_only_diseases ∧
      ((∃ w ∈ (DiagnosisValidator.validate_diagnosis "measles" ["fever"] (some 45) none).warnings,
          lookupKey "severity" w = some (JVal.jstr "warning")) ∧
        (DiagnosisValidator.validate_diagnosis "measles" ["fever"] (some 45) none).confidence_score ≤ 0.4) :=
  ⟨by decide, C2_pediatric_disease_at_45 "measles" ["fever"] none (by decide)⟩

open DiagnosisValidator in
/-- C10: with patient_age omitted the age stage returns no warnings and
multiplier 1.0, the returned warnings come only from the other stages, and
the confidence_score is the floored symptom-stage factor alone, so a missing
age never lowers the confidence through the age rule. -/
theorem C10_age_none_no_age_penalty (disease : String) (symptoms : List String)
    (patient_data : Option Payload) :
    validate_age_compatibility (normDisease disease) none = ([], 1.0) ∧
    (validate_diagnosis disease symptoms none patient_data).warnings =
      (validate_symptom_compatibility (normDisease disease) (symptoms.map normSymptom)).warnings ++
        (validate_geographic_factors (normDisease disease) patient_data).1 ++
        (validate_severity_factors (normDisease disease) (symptoms.map normSymptom) none).1 ∧
    (diagnosis_pipeline disease symptoms none patient_data).raw_confidence =
      appliedMultiplier
        (validate_symptom_compatibility (normDisease disease) (symptoms.map normSymptom)).warnings
        (validate_symptom_compatibility (normDisease disease) (symptoms.map normSymptom)).confidence_multiplier ∧
    (validate_diagnosis disease symptoms none patient_data).confidence_score =
      max 0.1 (appliedMultiplier
        (validate_symptom_compatibility (normDisease disease) (symptoms.map normSymptom)).warnings
        (validate_symptom_compatibility (normDisease disease) (symptoms.map normSymptom)).confidence_multiplier) := by
  have hage : validate_age_compatibility (normDisease disease) none = ([], 1.0) := rfl
  refine ⟨hage, ?_, ?_, ?_⟩
  · rw [warnings_eq, hage]
    dsimp only
    simp [List.append_assoc]
  · rw [raw_confidence_eq, hage]
    dsimp only
    rw [appliedMultiplier_nil, one_mul]
  · rw [confidence_score_eq, raw_confidence_eq, hage]
    dsimp only
    rw [appliedMultiplier_nil, one_mul]

/-! ## Supporting lemmas: symptom matcher -/

namespace SymptomMatcher

/-- Every entry list of the weight table is nonempty. -/
theorem table_entries_ne_nil : ∀ p ∈ symptom_disease_map, p.2 ≠ [] := by
  decide

/-- Every weight in the table is positive. -/
theorem table_weights_pos : ∀ p ∈ symptom_disease_map, ∀ q ∈ p.2, (0 : ℚ) < q.2 := by
  simp only [symptom_disease_map, List.forall_mem_cons, List.forall_mem_nil]
  norm_num

theorem lookup_mem {α β : Type} [BEq α] [LawfulBEq α] {k : α} {v : β} :
    ∀ {l : List (α × β)}, List.lookup k l = some v → (k, v) ∈ l := by
  intro l
  induction l with
  | nil => intro h; cases h
  | cons p t ih =>
    intro h
    rw [List.lookup] at h
    cases hk : (k == p.1) with
    | true =>
      rw [hk] at h
      dsimp only at h
      have hk2 : k = p.1 := by simpa using hk
      have hv : p.2 = v := by simpa using h
      exact List.mem_cons.mpr (Or.inl (by rw [hk2, ← hv]))
    | false =>
      rw [hk] at h
      dsimp only at h
      exact List.mem_cons_of_mem _ (ih h)

theorem bump_allpos {acc : List (String × ℚ)} {d : String} {w : ℚ}
    (ha : AllPos acc) (hw : 0 < w) : AllPos (bump acc d w) := by
  induction acc with
  | nil =>
    intro p hp
    simp only [bump, List.mem_singleton] at hp
    subst hp
    exact hw
  | cons q t ih =>
    intro p hp
    have hq := ha q (List.mem_cons_self q t)
    have ht : AllPos t := fun r hr => ha r (List.mem_cons_of_mem q hr)
    unfold bump at hp
    split_ifs at hp with hd
    · rcases List.mem_cons.mp hp with rfl | hin
      · dsimp only
        have := ha q (List.mem_cons_self q t)
        nlinarith [this, hw]
      · exact ha p (List.mem_cons_of_mem q hin)
    · rcases List.mem_cons.mp hp with rfl | hin
      · exact hq
      · exact ih ht p hin

theorem bump_ne_nil (acc : List (String × ℚ)) (d : String) (w : ℚ) :
    bump acc d w ≠ [] := by
  cases acc with
  | nil => simp [bump]
  | cons q t =>
    unfold bump
    split_ifs <;> simp

theorem bumpFold_allpos {entries acc : List (String × ℚ)}
    (ha : AllPos acc) (he : ∀ q ∈ entries, 0 < q.2) : AllPos (bumpFold acc entries) := by
  induction entries generalizing acc with
  | nil => exact ha
  | cons e t ih =>
    have h1 : AllPos (bump acc e.1 e.2) := bump_allpos ha (he e (List.mem_cons_self e t))
    exact ih h1 (fun q hq => he q (List.mem_cons_of_mem e hq))

theorem bumpFold_ne_nil_of_acc {entries acc : List (String × ℚ)}
    (hacc : acc ≠ []) : bumpFold acc entries ≠ [] := by
  induction entries generalizing acc with
  | nil => exact hacc
  | cons e t ih => exact ih (bump_ne_nil acc e.1 e.2)

theorem bumpFold_ne_nil {entries acc : List (String × ℚ)}
    (he : entries ≠ []) : bumpFold acc entries ≠ [] := by
  cases entries with
  | nil => exact absurd rfl he
  | cons e t =>
    show bumpFold (bump acc e.1 e.2) t ≠ []
    exact bumpFold_ne_nil_of_acc (bump_ne_nil acc e.1 e.2)

theorem addSymptom_allpos {acc : List (String × ℚ)} (s : String)
    (ha : AllPos acc) : AllPos (addSymptom acc s) := by
  unfold addSymptom
  cases hl : List.lookup s symptom_disease_map with
  | none => exact ha
  | some entries =>
    have hmem := lookup_mem hl
    exact bumpFold_allpos ha (table_weights_pos (s, entries) hmem)

theorem addSymptom_ne_nil {acc : List (String × ℚ)} (s : String)
    (hacc : acc ≠ []) : addSymptom acc s ≠ [] := by
  unfold addSymptom
  cases List.lookup s symptom_disease_map with
  | none => exact hacc
  | some entries => exact bumpFold_ne_nil_of_acc hacc

theorem addSymptom_matched_ne_nil (acc : List (String × ℚ)) {s : String}
    (hs : mapHasSymptom s = true) : addSymptom acc s ≠ [] := by
  unfold addSymptom
  unfold mapHasSymptom at hs
  cases hl : List.lookup s symptom_disease_map with
  | none => rw [hl] at hs; cases hs
  | some entries =>
    have hmem := lookup_mem hl
    exact bumpFold_ne_nil (table_entries_ne_nil (s, entries) hmem)

theorem addSymptom_unmatched {acc : List (String × ℚ)} {s : String}
    (hs : ¬ mapHasSymptom s = true) : addSymptom acc s = acc := by
  unfold addSymptom
  unfold mapHasSymptom at hs
  cases hl : List.lookup s symptom_disease_map with
  | none => rfl
  | some entries => rw [hl] at hs; simp at hs

theorem foldAdd_allpos {syms : List String} {acc : List (String × ℚ)}
    (ha : AllPos acc) : AllPos (syms.foldl addSymptom acc) := by
  induction syms generalizing acc with
  | nil => exact ha
  | cons s t ih => exact ih (addSymptom_allpos s ha)

theorem foldAdd_ne_nil_pres {syms : List String} {acc : List (String × ℚ)}
    (ha : acc ≠ []) : syms.foldl addSymptom acc ≠ [] := by
  induction syms generalizing acc with
  | nil => exact ha
  | cons s t ih => exact ih (addSymptom_ne_nil s ha)

theorem foldAdd_matched_ne_nil {syms : List String} {acc : List (String × ℚ)}
    (hm : ∃ s ∈ syms, mapHasSymptom s = true) : syms.foldl addSymptom acc ≠ [] := by
  induction syms generalizing acc with
  | nil => rcases hm with ⟨s, hs, _⟩; cases hs
  | cons s t ih =>
    by_cases hs : mapHasSymptom s = true
    · show t.foldl addSymptom (addSymptom acc s) ≠ []
      exact foldAdd_ne_nil_pres (addSymptom_matched_ne_nil acc hs)
    · rcases hm with ⟨s2, hs2, hmt⟩
      rcases List.mem_cons.mp hs2 with rfl | hin
      · exact absurd hmt hs
      · exact ih ⟨s2, hin, hmt⟩

theorem foldAdd_unmatched {syms : List String} {acc : List (String × ℚ)}
    (hm : ∀ s ∈ syms, ¬ mapHasSymptom s = true) : syms.foldl addSymptom acc = acc := by
  induction syms generalizing acc with
  | nil => rfl
  | cons s t ih =>
    have h1 : addSymptom acc s = acc :=
      addSymptom_unmatched (hm s (List.mem_cons_self s t))
    calc (s :: t).foldl addSymptom acc = t.foldl addSymptom (addSymptom acc s) := rfl
      _ = t.foldl addSymptom acc := by rw [h1]
      _ = acc := ih (fun s2 h2 => hm s2 (List.mem_cons_of_mem s h2))

theorem scaleKey_allpos {l : List (String × ℚ)} {d : String} {f : ℚ}
    (ha : AllPos l) (hf : 0 < f) : AllPos (scaleKey d f l) := by
  induction l with
  | nil => intro p hp; cases hp
  | cons q t ih =>
    have hq := ha q (List.mem_cons_self q t)
    have ht : AllPos t := fun r hr => ha r (List.mem_cons_of_mem q hr)
    intro p hp
    unfold scaleKey at hp
    split_ifs at hp with hd
    · rcases List.mem_cons.mp hp with rfl | hin
      · dsimp only
        nlinarith [hq, hf]
      · exact ht p hin
    · rcases List.mem_cons.mp hp with rfl | hin
      · exact hq
      · exact ih ht p hin

theorem scaleKey_ne_nil {l : List (String × ℚ)} {d : String} {f : ℚ}
    (hl : l ≠ []) : scaleKey d f l ≠ [] := by
  cases l with
  | nil => exact absurd rfl hl
  | cons q t => unfold scaleKey; split_ifs <;> simp

theorem scaleFold_allpos {ds : List String} {l : List (String × ℚ)} {f : ℚ}
    (ha : AllPos l) (hf : 0 < f) :
    AllPos (ds.foldl (fun a d => scaleKey d f a) l) := by
  induction ds generalizing l with
  | nil => exact ha
  | cons d t ih => exact ih (scaleKey_allpos ha hf)

theorem scaleFold_ne_nil {ds : List String} {l : List (String × ℚ)} {f : ℚ}
    (hl : l ≠ []) : ds.foldl (fun a d => scaleKey d f a) l ≠ [] := by
  induction ds generalizing l with
  | nil => exact hl
  | cons d t ih => exact ih (scaleKey_ne_nil hl)

theorem age_adjust_allpos {l : List (String × ℚ)} {age : Int}
    (ha : AllPos l) : AllPos (apply_age_adjustments l age) := by
  unfold apply_age_adjustments
  dsimp only
  split_ifs <;>
    repeat'
      first
        | assumption
        | exact scaleFold_allpos (by assumption) (by norm_num)
        | exact scaleFold_allpos (scaleFold_allpos (by assumption) (by norm_num)) (by norm_num)
        | exact scaleFold_allpos (scaleFold_allpos (scaleFold_allpos ha (by norm_num)) (by norm_num)) (by norm_num)

theorem age_adjust_ne_nil {l : List (String × ℚ)} {age : Int}
    (hl : l ≠ []) : apply_age_adjustments l age ≠ [] := by
  unfold apply_age_adjustments
  dsimp only
  split_ifs <;>
    repeat'
      first
        | assumption
        | exact scaleFold_ne_nil (by assumption)
        | exact scaleFold_ne_nil (scaleFold_ne_nil (by assumption))
        | exact scaleFold_ne_nil (scaleFold_ne_nil (scaleFold_ne_nil hl))

theorem foldl_max_le {t : List ℚ} : ∀ {x y : ℚ}, y ≤ x → y ≤ t.foldl max x := by
  induction t with
  | nil => intro x y h; exact h
  | cons a r ih => intro x y h; exact ih (le_trans h (le_max_left x a))

theorem foldl_max_mem_le {t : List ℚ} : ∀ {x y : ℚ}, y ∈ t → y ≤ t.foldl max x := by
  induction t with
  | nil => intro x y h; cases h
  | cons a r ih =>
    intro x y h
    show y ≤ r.foldl max (max x a)
    rcases List.mem_cons.mp h with rfl | hin
    · exact foldl_max_le (le_max_right x y)
    · exact ih hin

theorem foldl_max_attained {t : List ℚ} : ∀ {x : ℚ}, t.foldl max x = x ∨ t.foldl max x ∈ t := by
  induction t with
  | nil => intro x; left; rfl
  | cons a r ih =>
    intro x
    show r.foldl max (max x a) = x ∨ r.foldl max (max x a) ∈ a :: r
    rcases @ih (max x a) with h | h
    · rcases le_total x a with hxa | hax
      · right
        rw [h, max_eq_right hxa]
        exact List.mem_cons_self a r
      · left
        rw [h, max_eq_left hax]
    · right
      exact List.mem_cons_of_mem a h

theorem maxVal_ge {l : List ℚ} {y : ℚ} (hy : y ∈ l) : y ≤ maxVal l := by
  cases l with
  | nil => cases hy
  | cons x t =>
    unfold maxVal
    rcases List.mem_cons.mp hy with rfl | hin
    · exact foldl_max_le le_rfl
    · exact foldl_max_mem_le hin

theorem maxVal_mem {l : List ℚ} (hl : l ≠ []) : maxVal l ∈ l := by
  cases l with
  | nil => exact absurd rfl hl
  | cons x t =>
    show t.foldl max x ∈ x :: t
    rcases @foldl_max_attained t x with h | h
    · rw [h]; exact List.mem_cons_self x t
    · exact List.mem_cons_of_mem x h

theorem scoresAfterAge_matched_ne_nil {symptoms : List String} {patient_age : Option Int}
    (hm : ∃ s ∈ normalize_symptoms symptoms, mapHasSymptom s = true) :
    scoresAfterAge symptoms patient_age ≠ [] := by
  unfold scoresAfterAge
  cases patient_age with
  | none => exact foldAdd_matched_ne_nil hm
  | some age => exact age_adjust_ne_nil (foldAdd_matched_ne_nil hm)

theorem scoresAfterAge_allpos (symptoms : List String) (patient_age : Option Int) :
    AllPos (scoresAfterAge symptoms patient_age) := by
  have hbase : AllPos ((normalize_symptoms symptoms).foldl addSymptom []) :=
    foldAdd_allpos (fun p hp => absurd hp (List.not_mem_nil p))
  unfold scoresAfterAge
  cases patient_age with
  | none => exact hbase
  | some age => exact age_adjust_allpos hbase

theorem scoresAfterAge_unmatched {symptoms : List String} {patient_age : Option Int}
    (hm : ∀ s ∈ normalize_symptoms symptoms, ¬ mapHasSymptom s = true) :
    scoresAfterAge symptoms patient_age = [] := by
  have hbase : (normalize_symptoms symptoms).foldl addSymptom [] = [] :=
    foldAdd_unmatched hm
  have hsk : ∀ (ds : List String) (f : ℚ),
      ds.foldl (fun a d => scaleKey d f a) [] = [] := by
    intro ds f
    induction ds with
    | nil => rfl
    | cons d t ih => simpa [scaleKey] using ih
  unfold scoresAfterAge
  cases patient_age with
  | none => exact hbase
  | some age =>
    rw [hbase]
    unfold apply_age_adjustments
    dsimp only
    split_ifs <;> simp [hsk]

theorem calculate_disease_scores_eq (symptoms : List String) (patient_age : Option Int) :
    calculate_disease_scores symptoms patient_age =
      (if ¬ (scoresAfterAge symptoms patient_age).isEmpty then
        (if maxVal ((scoresAfterAge symptoms patient_age).map Prod.snd) > 0 then
          (scoresAfterAge symptoms patient_age).map
            (fun p => (p.1, p.2 / maxVal ((scoresAfterAge symptoms patient_age).map Prod.snd)))
        else scoresAfterAge symptoms patient_age)
      else scoresAfterAge symptoms patient_age) := by
  unfold calculate_disease_scores scoresAfterAge
  cases patient_age <;> rfl

end SymptomMatcher

open SymptomMatcher in
/-- C9: calculate_disease_scores normalizes the accumulated scores by their
maximum: every returned score lies between 0 and 1; whenever at least one
normalized symptom matches the weight table some disease scores exactly 1.0;
and when no symptom matches, the result is empty (so it contains no nonzero
score). -/
theorem C9_disease_scores_normalized (symptoms : List String) (patient_age : Option Int) :
    (∀ p ∈ calculate_disease_scores symptoms patient_age, 0 ≤ p.2 ∧ p.2 ≤ 1) ∧
      ((∃ s ∈ normalize_symptoms symptoms, mapHasSymptom s = true) →
        ∃ p ∈ calculate_disease_scores symptoms patient_age, p.2 = 1) ∧
      ((∀ s ∈ normalize_symptoms symptoms, ¬ mapHasSymptom s = true) →
        calculate_disease_scores symptoms patient_age = []) := by
  by_cases hm : ∃ s ∈ normalize_symptoms symptoms, mapHasSymptom s = true
  · -- at least one normalized symptom matched the weight table
    have hne : scoresAfterAge symptoms patient_age ≠ [] := scoresAfterAge_matched_ne_nil hm
    have hpos : AllPos (scoresAfterAge symptoms patient_age) :=
      scoresAfterAge_allpos symptoms patient_age
    have hvals_ne : (scoresAfterAge symptoms patient_age).map Prod.snd ≠ [] := by
      intro h
      exact hne (List.map_eq_nil_iff.mp h)
    have hmax_mem := maxVal_mem hvals_ne
    rcases List.mem_map.mp hmax_mem with ⟨pmax, hpmax, hpv⟩
    have hmax_pos : 0 < maxVal ((scoresAfterAge symptoms patient_age).map Prod.snd) := by
      rw [← hpv]
      exact hpos pmax hpmax
    have hres : calculate_disease_scores symptoms patient_age =
        (scoresAfterAge symptoms patient_age).map
          (fun p => (p.1, p.2 / maxVal ((scoresAfterAge symptoms patient_age).map Prod.snd))) := by
      rw [calculate_disease_scores_eq]
      rw [if_pos (by simpa [List.isEmpty_iff] using hne), if_pos hmax_pos]
    refine ⟨?_, ?_, ?_⟩
    · intro p hp
      rw [hres] at hp
      rcases List.mem_map.mp hp with ⟨q, hq, rfl⟩
      have hq_pos := hpos q hq
      have hq_le : q.2 ≤ maxVal ((scoresAfterAge symptoms patient_age).map Prod.snd) :=
        maxVal_ge (List.mem_map.mpr ⟨q, hq, rfl⟩)
      constructor
      · positivity
      · rw [div_le_one hmax_pos]
        exact hq_le
    · intro _
      rw [hres]
      refine ⟨(pmax.1, pmax.2 / maxVal ((scoresAfterAge symptoms patient_age).map Prod.snd)),
        List.mem_map.mpr ⟨pmax, hpmax, rfl⟩, ?_⟩
      dsimp only
      rw [hpv]
      exact div_self (ne_of_gt hmax_pos)
    · intro hall
      exfalso
      rcases hm with ⟨s, hs, hmt⟩
      exact hall s hs hmt
  · -- no normalized symptom matched
    push_neg at hm
    have hzero : scoresAfterAge symptoms patient_age = [] :=
      scoresAfterAge_unmatched (fun s hs => by simpa using hm s hs)
    have hres : calculate_disease_scores symptoms patient_age = [] := by
      rw [calculate_disease_scores_eq, hzero]
      simp
    refine ⟨?_, ?_, fun _ => hres⟩
    · intro p hp
      rw [hres] at hp
      cases hp
    · intro hex
      exact absurd hex (by push_neg; exact fun s hs => by simpa using hm s hs)

/-- Witness for C9 at symptoms [fever] with no age: fever matches the table,
so some disease gets score exactly 1. -/
theorem C9_witness :
    ∃ p ∈ SymptomMatcher.calculate_disease_scores ["fever"] none, p.2 = 1 :=
  (C9_disease_scores_normalized ["fever"] none).2.1
    ⟨"fever", by decide, by decide⟩
/-! ## Supporting lemmas: payload dictionaries and the fusion step -/

theorem except_bind_ok {α β : Type} (a : α) (f : α → Except String β) :
    (Except.ok a >>= f : Except String β) = f a := rfl

theorem lookupKey_setKey_same (k : String) (v : JVal) (p : Payload) :
    lookupKey k (setKey k v p) = some v := by
  induction p with
  | nil => simp [setKey, lookupKey]
  | cons q t ih =>
    unfold setKey
    split_ifs with h
    · simp [lookupKey]
    · rw [lookupKey, if_neg h]
      exact ih

theorem lookupKey_setKey_ne (k k2 : String) (v : JVal) (p : Payload) (h : k ≠ k2) :
    lookupKey k (setKey k2 v p) = lookupKey k p := by
  induction p with
  | nil => simp [setKey, lookupKey, Ne.symm h]
  | cons q t ih =>
    unfold setKey
    split_ifs with h2
    · rw [lookupKey, lookupKey, if_neg, if_neg]
      · rw [h2]
        exact Ne.symm h
      · exact fun hq => (Ne.symm h) (h2 ▸ hq)
    · rw [lookupKey, lookupKey]
      split_ifs with h3
      · rfl
      · exact ih

open LLMResponseValidator in
theorem copyEnhancement_obj_ok (a : Payload) (src dst : String) (p : Payload) :
    ∃ p2, LLMService.copyEnhancement (JVal.jobj a) src dst p = .ok p2 ∧
      ∀ k, k ≠ dst → lookupKey k p2 = lookupKey k p := by
  unfold LLMService.copyEnhancement
  rw [show jInKey src (JVal.jobj a) = .ok (hasKey src a) from rfl, except_bind_ok]
  by_cases hb : hasKey src a = true
  · rw [if_pos hb]
    unfold hasKey at hb
    obtain ⟨v, hv⟩ := Option.isSome_iff_exists.mp hb
    rw [show jGetItem (JVal.jobj a) src =
      (match lookupKey src a with
        | some x => Except.ok x
        | none => Except.error "KeyError") from rfl]
    rw [hv]
    dsimp only
    rw [except_bind_ok]
    exact ⟨setKey dst v p, rfl, fun k hk => lookupKey_setKey_ne k dst v p hk⟩
  · rw [if_neg hb]
    exact ⟨p, rfl, fun _ _ => rfl⟩

theorem convex_combination_bounds (i e : ℚ) :
    min i e ≤ i * 0.6 + e * 0.4 ∧ i * 0.6 + e * 0.4 ≤ max i e := by
  rcases le_total i e with h | h
  · rw [min_eq_left h, max_eq_right h]
    constructor <;> nlinarith
  · rw [min_eq_right h, max_eq_left h]
    constructor <;> nlinarith

/-! ## Claim theorem: C7 -/

open LLMResponseValidator LLMService in
/-- C7: when the traditional result carries a numeric confidence i and the
extracted LLM analysis object carries a numeric confidence_score e, the
combined result's confidence equals 0.6 times i plus 0.4 times e, which lies
between min i e and max i e. -/
theorem C7_fusion_convex_combination (trad llm a : Payload) (i e : ℚ)
    (hA : (lookupKey "analysis" llm).getD (JVal.jobj llm) = JVal.jobj a)
    (he : lookupKey "confidence_score" a = some (JVal.jnum e))
    (hi : lookupKey "confidence" trad = some (JVal.jnum i)) :
    lookupKey "confidence" (combine_ml_and_llm_results trad llm) =
      some (JVal.jnum (i * 0.6 + e * 0.4)) ∧
      min i e ≤ i * 0.6 + e * 0.4 ∧ i * 0.6 + e * 0.4 ≤ max i e := by
  have hin : jInKey "confidence_score" (JVal.jobj a) = .ok true := by
    simp [jInKey, hasKey, he]
  have hget : jGetItem (JVal.jobj a) "confidence_score" = .ok (JVal.jnum e) := by
    simp [jGetItem, he]
  have htry : ∃ res, combineTry trad llm = .ok res ∧
      lookupKey "confidence" res = some (JVal.jnum (i * 0.6 + e * 0.4)) := by
    unfold combineTry
    simp only [hA, hin, hget, hi, except_bind_ok, Option.getD_some, toNumQ, if_true]
    rw [show (pure (setKey "confidence" (JVal.jnum (i * 0.6 + e * 0.4))
      (setKey "llm_analysis" (JVal.jobj a)
        (setKey "enhancement_status" (JVal.jstr "Successfully enhanced with LLM analysis")
          (setKey "llm_enhanced" (JVal.jbool true) trad)))) : Except String Payload) =
      Except.ok (setKey "confidence" (JVal.jnum (i * 0.6 + e * 0.4))
        (setKey "llm_analysis" (JVal.jobj a)
          (setKey "enhancement_status" (JVal.jstr "Successfully enhanced with LLM analysis")
            (setKey "llm_enhanced" (JVal.jbool true) trad)))) from rfl]
    rw [except_bind_ok]
    obtain ⟨p5, h5, hl5⟩ := copyEnhancement_obj_ok a "diagnosis" "enhanced_diagnosis" _
    rw [h5, except_bind_ok]
    obtain ⟨p6, h6, hl6⟩ := copyEnhancement_obj_ok a "differential_diagnoses" "differential_diagnoses" p5
    rw [h6, except_bind_ok]
    obtain ⟨p7, h7, hl7⟩ := copyEnhancement_obj_ok a "risk_level" "risk_level" p6
    rw [h7, except_bind_ok]
    obtain ⟨p8, h8, hl8⟩ := copyEnhancement_obj_ok a "red_flags" "red_flags" p7
    rw [h8, except_bind_ok]
    obtain ⟨p9, h9, hl9⟩ := copyEnhancement_obj_ok a "treatment_recommendations" "enhanced_treatment" p8
    rw [h9, except_bind_ok]
    obtain ⟨p10, h10, hl10⟩ := copyEnhancement_obj_ok a "clinical_reasoning" "clinical_reasoning" p9
    rw [h10]
    refine ⟨p10, rfl, ?_⟩
    rw [hl10 _ (by decide), hl9 _ (by decide), hl8 _ (by decide), hl7 _ (by decide),
      hl6 _ (by decide), hl5 _ (by decide)]
    exact lookupKey_setKey_same "confidence" _ _
  obtain ⟨res, hres, hlook⟩ := htry
  refine ⟨?_, convex_combination_bounds i e⟩
  unfold combine_ml_and_llm_results
  rw [hres]
  exact hlook

/-- Witness for C7 at internal confidence one half and external confidence
three quarters. -/
theorem C7_witness :
    lookupKey "confidence"
        (LLMService.combine_ml_and_llm_results
          [("confidence", JVal.jnum (1/2))]
          [("analysis", JVal.jobj [("confidence_score", JVal.jnum (3/4))])]) =
      some (JVal.jnum ((1/2) * 0.6 + (3/4) * 0.4)) ∧
      min (1/2 : ℚ) (3/4) ≤ (1/2) * 0.6 + (3/4) * 0.4 ∧
      (1/2 : ℚ) * 0.6 + (3/4) * 0.4 ≤ max (1/2 : ℚ) (3/4) :=
  C7_fusion_convex_combination
    [("confidence", JVal.jnum (1/2))]
    [("analysis", JVal.jobj [("confidence_score", JVal.jnum (3/4))])]
    [("confidence_score", JVal.jnum (3/4))] (1/2) (3/4) rfl rfl rfl

/-! ## Supporting lemmas: differential diagnoses ordering -/

namespace EnhancedDiagnosticEngine

theorem diffOrder_total_thm (prob : List ℚ) :
    ∀ i j, diffOrder prob i j ∨ diffOrder prob j i := by
  intro i j
  rcases lt_trichotomy (prob.getD i 0) (prob.getD j 0) with h | h | h
  · right; left; exact h
  · rcases le_total i j with hij | hij
    · left; right; exact ⟨h, hij⟩
    · right; right; exact ⟨h.symm, hij⟩
  · left; left; exact h

theorem diffOrder_trans_thm (prob : List ℚ) :
    ∀ i j k, diffOrder prob i j → diffOrder prob j k → diffOrder prob i k := by
  rintro i j k (h1 | ⟨e1, l1⟩) (h2 | ⟨e2, l2⟩)
  · left; exact lt_trans h2 h1
  · left; rw [← e2]; exact h1
  · left; rw [e1]; exact h2
  · right; exact ⟨e1.trans e2, le_trans l1 l2⟩

instance (prob : List ℚ) : IsTotal ℕ (diffOrder prob) := ⟨diffOrder_total_thm prob⟩

instance (prob : List ℚ) : IsTrans ℕ (diffOrder prob) := ⟨diffOrder_trans_thm prob⟩

theorem argsortDesc_sorted (prob : List ℚ) :
    (argsortDesc prob).Sorted (diffOrder prob) :=
  List.sorted_insertionSort _ _

theorem argsortDesc_perm (prob : List ℚ) :
    (argsortDesc prob).Perm (List.range prob.length) :=
  List.perm_insertionSort _ _

theorem diffLoop_mem_conf (nameOf : String → Option String) (cls : List String)
    (prob : List ℚ) :
    ∀ (idxs : List ℕ) (i : ℕ) (A : DiffEntry), A ∈ diffLoop nameOf cls prob idxs i →
      ∃ idx ∈ idxs, A.confidence = prob.getD idx 0 := by
  intro idxs
  induction idxs with
  | nil => intro i A h; cases h
  | cons idx rest ih =>
    intro i A h
    unfold diffLoop at h
    cases hn : nameOf (cls.getD idx "") with
    | some n =>
      rw [hn] at h
      dsimp only at h
      split_ifs at h with hne
      · rcases List.mem_cons.mp h with rfl | hin
        · exact ⟨idx, List.mem_cons_self idx rest, rfl⟩
        · obtain ⟨idx2, h2, h3⟩ := ih (i + 1) A hin
          exact ⟨idx2, List.mem_cons_of_mem idx h2, h3⟩
      · obtain ⟨idx2, h2, h3⟩ := ih (i + 1) A h
        exact ⟨idx2, List.mem_cons_of_mem idx h2, h3⟩
    | none =>
      rw [hn] at h
      dsimp only at h
      obtain ⟨idx2, h2, h3⟩ := ih (i + 1) A h
      exact ⟨idx2, List.mem_cons_of_mem idx h2, h3⟩

theorem diffLoop_length (nameOf : String → Option String) (cls : List String)
    (prob : List ℚ) :
    ∀ (idxs : List ℕ) (i : ℕ),
      (∀ idx ∈ idxs, ∃ n, nameOf (cls.getD idx "") = some n ∧ n ≠ "") →
      (diffLoop nameOf cls prob idxs i).length = idxs.length := by
  intro idxs
  induction idxs with
  | nil => intro i _; rfl
  | cons idx rest ih =>
    intro i hgood
    obtain ⟨n, hn, hne⟩ := hgood idx (List.mem_cons_self idx rest)
    unfold diffLoop
    rw [hn]
    dsimp only
    rw [if_pos hne]
    simp only [List.length_cons]
    rw [ih (i + 1) (fun idx2 h2 => hgood idx2 (List.mem_cons_of_mem idx h2))]

theorem diffLoop_codes (nameOf : String → Option String) (cls : List String)
    (prob : List ℚ) :
    ∀ (idxs : List ℕ) (i : ℕ),
      (∀ idx ∈ idxs, ∃ n, nameOf (cls.getD idx "") = some n ∧ n ≠ "") →
      (diffLoop nameOf cls prob idxs i).map DiffEntry.disease_code =
        idxs.map (fun idx => cls.getD idx "") := by
  intro idxs
  induction idxs with
  | nil => intro i _; rfl
  | cons idx rest ih =>
    intro i hgood
    obtain ⟨n, hn, hne⟩ := hgood idx (List.mem_cons_self idx rest)
    unfold diffLoop
    rw [hn]
    dsimp only
    rw [if_pos hne]
    simp only [List.map_cons]
    rw [ih (i + 1) (fun idx2 h2 => hgood idx2 (List.mem_cons_of_mem idx h2))]

theorem diffLoop_sorted (nameOf : String → Option String) (cls : List String)
    (prob : List ℚ) :
    ∀ (idxs : List ℕ) (i : ℕ),
      idxs.Pairwise (fun x y => prob.getD y 0 ≤ prob.getD x 0) →
      (diffLoop nameOf cls prob idxs i).Pairwise
        (fun A B => B.confidence ≤ A.confidence) := by
  intro idxs
  induction idxs with
  | nil => intro i _; exact List.Pairwise.nil
  | cons idx rest ih =>
    intro i hp
    rw [List.pairwise_cons] at hp
    unfold diffLoop
    cases hn : nameOf (cls.getD idx "") with
    | some n =>
      dsimp only
      split_ifs with hne
      · refine List.Pairwise.cons ?_ (ih (i + 1) hp.2)
        intro B hB
        obtain ⟨idx2, h2, h3⟩ := diffLoop_mem_conf nameOf cls prob rest (i + 1) B hB
        rw [h3]
        exact hp.1 idx2 h2
      · exact ih (i + 1) hp.2
    | none =>
      dsimp only
      exact ih (i + 1) hp.2

theorem diffOrder_imp_le (prob : List ℚ) {i j : ℕ} (h : diffOrder prob i j) :
    prob.getD j 0 ≤ prob.getD i 0 := by
  rcases h with h | ⟨h, _⟩
  · exact le_of_lt h
  · exact le_of_eq h.symm

theorem argsort_drop_good (nameOf : String → Option String) (classes : List String)
    (prob : List ℚ)
    (hname : ∀ c ∈ classes, ∃ n, nameOf c = some n ∧ n ≠ "")
    (hcl : classes.length = prob.length) :
    ∀ idx ∈ (argsortDesc prob).drop 1,
      ∃ n, nameOf (classes.getD idx "") = some n ∧ n ≠ "" := by
  intro idx hidx
  have hmem : idx ∈ argsortDesc prob := List.drop_subset 1 _ hidx
  have hrange : idx ∈ List.range prob.length := (argsortDesc_perm prob).mem_iff.mp hmem
  have hlt : idx < classes.length := by
    rw [hcl]
    exact List.mem_range.mp hrange
  have hget : classes.getD idx "" ∈ classes := by
    rw [List.getD_eq_getElem classes "" hlt]
    exact List.getElem_mem hlt
  exact hname _ hget

theorem differential_length_all_names (nameOf : String → Option String)
    (classes : List String) (prob : List ℚ)
    (hname : ∀ c ∈ classes, ∃ n, nameOf c = some n ∧ n ≠ "")
    (hcl : classes.length = prob.length) :
    (differential_diagnoses nameOf classes prob).length = prob.length - 1 := by
  unfold differential_diagnoses
  rw [diffLoop_length nameOf classes prob _ 0
    (argsort_drop_good nameOf classes prob hname hcl)]
  rw [List.length_drop]
  rw [(argsortDesc_perm prob).length_eq, List.length_range]

end EnhancedDiagnosticEngine

/-! ## Claim theorems: C5 -/

open EnhancedDiagnosticEngine in
/-- C5 as stated is false: the differential list is not capped at five
entries.  With seven classes of distinct probabilities and every class name
resolving, the differential holds all six non-primary classes. -/
theorem C5_counterexample :
    (differential_diagnoses (fun c => some c)
        ["d1", "d2", "d3", "d4", "d5", "d6", "d7"]
        [7/28, 6/28, 5/28, 4/28, 3/28, 2/28, 1/28]).length = 6 ∧
      ¬ ((differential_diagnoses (fun c => some c)
        ["d1", "d2", "d3", "d4", "d5", "d6", "d7"]
        [7/28, 6/28, 5/28, 4/28, 3/28, 2/28, 1/28]).length ≤ 5) := by
  have h := differential_length_all_names (fun c => some c)
    ["d1", "d2", "d3", "d4", "d5", "d6", "d7"]
    [7/28, 6/28, 5/28, 4/28, 3/28, 2/28, 1/28]
    (by
      intro c hc
      refine ⟨c, rfl, ?_⟩
      fin_cases hc <;> decide)
    rfl
  constructor
  · rw [h]
    rfl
  · rw [h]
    decide


open EnhancedDiagnosticEngine in
/-- C5 amended: when the class and probability lists have equal length and
every class name resolves to a nonempty display name, the
differential_diagnoses list contains one entry per class other than the
first-ranked one (a class of maximal combined probability), sorted descending
by ensemble probability, with no top-K cap: its length is the class count
minus one. -/
theorem C5_differential_sorted_uncapped (nameOf : String → Option String)
    (classes : List String) (prob : List ℚ)
    (hname : ∀ c ∈ classes, ∃ n, nameOf c = some n ∧ n ≠ "")
    (hcl : classes.length = prob.length) (hlen : 1 ≤ prob.length) :
    (differential_diagnoses nameOf classes prob).length = prob.length - 1 ∧
      (differential_diagnoses nameOf classes prob).Pairwise
        (fun A B => B.confidence ≤ A.confidence) ∧
      (differential_diagnoses nameOf classes prob).map DiffEntry.disease_code =
        ((argsortDesc prob).drop 1).map (fun idx => classes.getD idx "") ∧
      (argsortDesc prob).Perm (List.range prob.length) ∧
      (∀ j < prob.length, prob.getD j 0 ≤ prob.getD ((argsortDesc prob).headD 0) 0) := by
  refine ⟨differential_length_all_names nameOf classes prob hname hcl, ?_, ?_, argsortDesc_perm prob, ?_⟩
  · unfold differential_diagnoses
    refine diffLoop_sorted nameOf classes prob _ 0 ?_
    have hsorted := argsortDesc_sorted prob
    have hpw : (argsortDesc prob).Pairwise (fun x y => prob.getD y 0 ≤ prob.getD x 0) :=
      List.Pairwise.imp (fun h => diffOrder_imp_le prob h) hsorted
    exact hpw.sublist (List.drop_sublist 1 _)
  · unfold differential_diagnoses
    exact diffLoop_codes nameOf classes prob _ 0
      (argsort_drop_good nameOf classes prob hname hcl)
  · intro j hj
    cases hsh : argsortDesc prob with
    | nil =>
      exfalso
      have := (argsortDesc_perm prob).length_eq
      rw [hsh, List.length_range] at this
      simp at this
      omega
    | cons h t =>
      have hjmem : j ∈ argsortDesc prob :=
        (argsortDesc_perm prob).mem_iff.mpr (List.mem_range.mpr hj)
      rw [hsh] at hjmem
      have hsorted := argsortDesc_sorted prob
      rw [hsh] at hsorted
      simp only [List.headD_cons]
      rcases List.mem_cons.mp hjmem with rfl | hin
      · exact le_refl _
      · exact diffOrder_imp_le prob ((List.pairwise_cons.mp hsorted).1 j hin)

/-- Witness for the amended C5 at a three-class distribution. -/
theorem C5_witness :
    (EnhancedDiagnosticEngine.differential_diagnoses (fun c => some c)
        ["a1", "a2", "a3"] [1/2, 1/3, 1/6]).length = 2 ∧
      (EnhancedDiagnosticEngine.differential_diagnoses (fun c => some c)
        ["a1", "a2", "a3"] [1/2, 1/3, 1/6]).Pairwise
        (fun A B => B.confidence ≤ A.confidence) := by
  have h := C5_differential_sorted_uncapped (fun c => some c)
    ["a1", "a2", "a3"] [1/2, 1/3, 1/6]
    (by
      intro c hc
      refine ⟨c, rfl, ?_⟩
      fin_cases hc <;> decide)
    rfl
    (by decide)
  exact ⟨h.1, h.2.1⟩

/-! ## Supporting lemmas: smoothed entropy bounds -/

namespace EnhancedDiagnosticEngine

theorem epsSmooth_pos : 0 < epsSmooth := by
  unfold epsSmooth
  norm_num

theorem sum_map_affine (l : List ℝ) (a b : ℝ) :
    (l.map (fun x => a * x + b)).sum = a * l.sum + l.length * b := by
  induction l with
  | nil => simp
  | cons x t ih =>
    simp only [List.map_cons, List.sum_cons, ih, List.length_cons]
    push_cast
    ring

theorem one_sub_inv_le_log (y : ℝ) (hy : 0 < y) : 1 - 1 / y ≤ Real.log y := by
  have h := Real.log_le_sub_one_of_pos (show (0 : ℝ) < 1 / y by positivity)
  rw [one_div, Real.log_inv] at h
  have : 1 / y = y⁻¹ := one_div y
  rw [this]
  linarith

theorem entropyTerm_ge (x N : ℝ) (hx : 0 ≤ x) (hN : 0 < N) :
    x - 1 / N - x * Real.log N ≤ entropyTerm x := by
  rcases eq_or_lt_of_le hx with heq | hxpos
  · rw [← heq]
    unfold entropyTerm
    have : 0 < 1 / N := by positivity
    nlinarith
  · have hxe : 0 < x + epsSmooth := by nlinarith [epsSmooth_pos]
    have hNx : (0 : ℝ) < N * x := mul_pos hN hxpos
    have h1 : Real.log (N * x) ≤ Real.log (N * (x + epsSmooth)) := by
      apply Real.log_le_log hNx
      nlinarith [epsSmooth_pos]
    have h2 : 1 - 1 / (N * x) ≤ Real.log (N * x) := one_sub_inv_le_log _ hNx
    have h3 : Real.log (N * (x + epsSmooth)) = Real.log N + Real.log (x + epsSmooth) :=
      Real.log_mul (ne_of_gt hN) (ne_of_gt hxe)
    have h4 : x * (1 - 1 / (N * x)) ≤ x * (Real.log N + Real.log (x + epsSmooth)) := by
      apply mul_le_mul_of_nonneg_left _ hx
      rw [← h3]
      linarith
    have h5 : x * (1 - 1 / (N * x)) = x - 1 / N := by
      field_simp
      ring
    unfold entropyTerm
    nlinarith [h4, h5]

theorem sum_entropyTerm_ge (p : List ℝ) (hpos : ∀ x ∈ p, 0 ≤ x) (hsum : p.sum = 1)
    (hlen : 1 ≤ p.length) :
    -Real.log (p.length : ℝ) ≤ (p.map entropyTerm).sum := by
  have hN : (0 : ℝ) < (p.length : ℝ) := by
    have : (0 : ℕ) < p.length := by omega
    exact_mod_cast this
  have hstep : (p.map (fun x => (1 - Real.log (p.length : ℝ)) * x + (-(1 / (p.length : ℝ))))).sum ≤
      (p.map entropyTerm).sum := by
    apply List.sum_le_sum
    intro x hx
    have h := entropyTerm_ge x (p.length : ℝ) (hpos x hx) hN
    nlinarith [h]
  rw [sum_map_affine, hsum] at hstep
  have hl : (p.length : ℝ) * (-(1 / (p.length : ℝ))) = -1 := by
    field_simp
  nlinarith [hstep, hl]

theorem sum_entropyTerm_le (p : List ℝ) (hpos : ∀ x ∈ p, 0 ≤ x) (hsum : p.sum = 1) :
    (p.map entropyTerm).sum ≤ epsSmooth := by
  have hx1 : ∀ x ∈ p, x ≤ 1 := by
    intro x hx
    rw [← hsum]
    exact List.single_le_sum hpos x hx
  have hstep : (p.map entropyTerm).sum ≤ (p.map (fun x => epsSmooth * x + 0)).sum := by
    apply List.sum_le_sum
    intro x hx
    have hxe : 0 < x + epsSmooth := by
      have := hpos x hx
      nlinarith [epsSmooth_pos]
    have h1 : Real.log (x + epsSmooth) ≤ Real.log (1 + epsSmooth) := by
      apply Real.log_le_log hxe
      have := hx1 x hx
      linarith
    have h2 : Real.log (1 + epsSmooth) ≤ epsSmooth := by
      have := Real.log_le_sub_one_of_pos (show (0 : ℝ) < 1 + epsSmooth by nlinarith [epsSmooth_pos])
      linarith
    unfold entropyTerm
    have := hpos x hx
    nlinarith [h1, h2]
  rw [sum_map_affine, hsum] at hstep
  linarith

theorem half_le_log_len {n : ℕ} (hn : 2 ≤ n) : (1 : ℝ) / 2 ≤ Real.log (n : ℝ) := by
  have h2 : Real.log 2 ≤ Real.log (n : ℝ) := by
    apply Real.log_le_log (by norm_num)
    exact_mod_cast hn
  have := Real.log_two_gt_d9
  linarith

theorem log_len_pos {n : ℕ} (hn : 2 ≤ n) : 0 < Real.log (n : ℝ) := by
  have := half_le_log_len hn
  linarith

end EnhancedDiagnosticEngine

/-! ## Claim theorems: C4 -/

open EnhancedDiagnosticEngine in
/-- C4 as stated is false: for the one-hot distribution over two classes the
additive 1e-10 smoothing inside the entropy makes the uncertainty score
strictly negative, so it does not lie in the interval from 0 to 1. -/
theorem C4_counterexample :
    (∀ x ∈ [(1 : ℝ), 0], 0 ≤ x) ∧ ([(1 : ℝ), 0]).sum = 1 ∧
      uncertaintyScore [(1 : ℝ), 0] < 0 := by
  refine ⟨by intro x hx; fin_cases hx <;> norm_num, by norm_num, ?_⟩
  unfold uncertaintyScore
  have hmap : ([(1 : ℝ), 0]).map entropyTerm = [entropyTerm 1, entropyTerm 0] := rfl
  rw [hmap]
  have h0 : entropyTerm 0 = 0 := by
    unfold entropyTerm
    ring
  have h1 : entropyTerm 1 = Real.log (1 + epsSmooth) := by
    unfold entropyTerm
    ring
  rw [h0, h1]
  simp only [List.sum_cons, List.sum_nil, add_zero, List.length_cons, List.length_nil]
  have hlogpos : 0 < Real.log (1 + epsSmooth) :=
    Real.log_pos (by nlinarith [epsSmooth_pos])
  have hlog2 : 0 < Real.log ((2 : ℕ) : ℝ) := log_len_pos (le_refl 2)
  apply div_neg_of_neg_of_pos
  · linarith
  · exact_mod_cast hlog2

open EnhancedDiagnosticEngine in
/-- C4 amended: for every probability distribution over at least two classes
the uncertainty score lies in the interval from minus twice the smoothing
constant (1e-10) to 1; the uniform distribution over N classes scores at
least 1 minus 2N times the smoothing constant (approximately 1), and a
one-hot distribution scores at most 0 (and at least the same negative
epsilon, i.e. approximately 0). -/
theorem C4_uncertainty_bounds (p : List ℝ) (hpos : ∀ x ∈ p, 0 ≤ x)
    (hsum : p.sum = 1) (hN : 2 ≤ p.length) :
    (-(2 * epsSmooth) ≤ uncertaintyScore p ∧ uncertaintyScore p ≤ 1) ∧
      (∀ N : ℕ, p = List.replicate N ((N : ℝ))⁻¹ →
        1 - 2 * N * epsSmooth ≤ uncertaintyScore p) ∧
      ((∀ x ∈ p, x = 0 ∨ x = 1) → uncertaintyScore p ≤ 0) := by
  have hlogpos : 0 < Real.log (p.length : ℝ) := log_len_pos hN
  have hloghalf : (1 : ℝ) / 2 ≤ Real.log (p.length : ℝ) := half_le_log_len hN
  have hSle : (p.map entropyTerm).sum ≤ epsSmooth := sum_entropyTerm_le p hpos hsum
  have hSge : -Real.log (p.length : ℝ) ≤ (p.map entropyTerm).sum :=
    sum_entropyTerm_ge p hpos hsum (by omega)
  refine ⟨⟨?_, ?_⟩, ?_, ?_⟩
  · -- lower bound
    unfold uncertaintyScore
    rw [le_div_iff hlogpos]
    nlinarith [hSle, epsSmooth_pos]
  · -- upper bound
    unfold uncertaintyScore
    rw [div_le_one hlogpos]
    linarith
  · -- uniform distribution
    intro N hrep
    have hlen : p.length = N := by rw [hrep, List.length_replicate]
    have hN2 : 2 ≤ N := hlen ▸ hN
    have hNR : (0 : ℝ) < (N : ℝ) := by
      have : (0 : ℕ) < N := by omega
      exact_mod_cast this
    have hS : (p.map entropyTerm).sum = Real.log ((N : ℝ)⁻¹ + epsSmooth) := by
      rw [hrep]
      rw [List.map_replicate, List.sum_replicate, nsmul_eq_mul]
      unfold entropyTerm
      field_simp
    have harg : (N : ℝ)⁻¹ + epsSmooth = (1 + N * epsSmooth) / N := by
      field_simp
      ring
    have hlog : Real.log ((N : ℝ)⁻¹ + epsSmooth) =
        Real.log (1 + N * epsSmooth) - Real.log (N : ℝ) := by
      rw [harg]
      apply Real.log_div
      · nlinarith [epsSmooth_pos]
      · exact ne_of_gt hNR
    have hlog1 : 0 ≤ Real.log (1 + N * epsSmooth) :=
      Real.log_nonneg (by nlinarith [epsSmooth_pos])
    have hlog2 : Real.log (1 + N * epsSmooth) ≤ N * epsSmooth := by
      have := Real.log_le_sub_one_of_pos
        (show (0 : ℝ) < 1 + N * epsSmooth by nlinarith [epsSmooth_pos])
      linarith
    unfold uncertaintyScore
    rw [hS, hlog, hlen]
    rw [le_div_iff (by rw [← hlen] at hN2 ⊢; exact log_len_pos hN2)]
    have hloghalfN : (1 : ℝ) / 2 ≤ Real.log (N : ℝ) := half_le_log_len hN2
    nlinarith [hlog1, hlog2, hloghalfN, epsSmooth_pos, hNR]
  · -- one-hot distribution
    intro hone
    have hmap : p.map entropyTerm = p.map (fun x => Real.log (1 + epsSmooth) * x + 0) := by
      apply List.map_congr_left
      intro x hx
      rcases hone x hx with rfl | rfl
      · unfold entropyTerm
        ring
      · unfold entropyTerm
        ring
    have hS : (p.map entropyTerm).sum = Real.log (1 + epsSmooth) := by
      rw [hmap, sum_map_affine, hsum]
      ring
    have hlogpos1 : 0 < Real.log (1 + epsSmooth) :=
      Real.log_pos (by nlinarith [epsSmooth_pos])
    unfold uncertaintyScore
    rw [hS]
    apply div_nonpos_of_nonpos_of_nonneg
    · linarith
    · linarith

/-- Witness for the amended C4 at the uniform distribution over two classes. -/
theorem C4_witness :
    (-(2 * EnhancedDiagnosticEngine.epsSmooth) ≤
        EnhancedDiagnosticEngine.uncertaintyScore (List.replicate 2 ((2 : ℝ))⁻¹) ∧
      EnhancedDiagnosticEngine.uncertaintyScore (List.replicate 2 ((2 : ℝ))⁻¹) ≤ 1) ∧
      1 - 2 * (2 : ℕ) * EnhancedDiagnosticEngine.epsSmooth ≤
        EnhancedDiagnosticEngine.uncertaintyScore (List.replicate 2 ((2 : ℝ))⁻¹) := by
  have h := C4_uncertainty_bounds (List.replicate 2 ((2 : ℝ))⁻¹)
    (by
      intro x hx
      rw [List.eq_of_mem_replicate hx]
      norm_num)
    (by
      rw [List.sum_replicate, nsmul_eq_mul]
      norm_num)
    (by rw [List.length_replicate])
  exact ⟨h.1, h.2.1 2 rfl⟩

/-! ## Supporting lemmas: case-insensitive substitution -/

theorem lowerL_cons (c : Char) (l : List Char) :
    lowerL (c :: l) = c.toLower :: lowerL l := rfl

theorem lowerL_append (a b : List Char) : lowerL (a ++ b) = lowerL a ++ lowerL b :=
  List.map_append _ _ _

theorem lowerL_drop (l : List Char) (n : ℕ) : lowerL (l.drop n) = (lowerL l).drop n := by
  unfold lowerL
  rw [List.map_drop]

theorem lowerL_ne_nil {l : List Char} (h : l ≠ []) : lowerL l ≠ [] := by
  cases l with
  | nil => exact absurd rfl h
  | cons c t => simp [lowerL]

theorem prefB_nil_left (t : List Char) : prefB [] t = true := by
  cases t <;> rfl

theorem prefB_cons_cons (a b : Char) (p t : List Char) :
    prefB (a :: p) (b :: t) = ((a == b) && prefB p t) := rfl

theorem occB_cons (p : List Char) (c : Char) (t : List Char) :
    occB p (c :: t) = (prefB p (c :: t) || occB p t) := rfl

theorem occB_nil_left (t : List Char) : occB [] t = true := by
  cases t with
  | nil => rfl
  | cons c r => rw [occB_cons, prefB_nil_left]; rfl

theorem occB_of_prefB {p t : List Char} (h : prefB p t = true) : occB p t = true := by
  cases t with
  | nil => exact h
  | cons c r => rw [occB_cons, h]; rfl

theorem prefB_append_split :
    ∀ (X q : List Char) {B : List Char}, prefB q (X ++ B) = true →
      prefB q X = true ∨ ∃ q2, q = X ++ q2 ∧ prefB q2 B = true := by
  intro X
  induction X with
  | nil =>
    intro q B h
    right
    exact ⟨q, rfl, h⟩
  | cons x X' ih =>
    intro q B h
    cases q with
    | nil => left; exact prefB_nil_left _
    | cons c q' =>
      rw [List.cons_append, prefB_cons_cons, Bool.and_eq_true] at h
      rcases h with ⟨hcx, hrest⟩
      rcases ih q' hrest with hL | ⟨q2, hq2, hB⟩
      · left
        rw [prefB_cons_cons, Bool.and_eq_true]
        exact ⟨hcx, hL⟩
      · right
        refine ⟨q2, ?_, hB⟩
        have hc : c = x := by simpa using hcx
        rw [List.cons_append, ← hc, hq2]

theorem mem_of_getLast?_eq : ∀ (l : List Char) (z : Char), l.getLast? = some z → z ∈ l := by
  intro l
  induction l with
  | nil => intro z h; cases h
  | cons a t ih =>
    intro z h
    cases t with
    | nil =>
      simp only [List.getLast?_singleton, Option.some.injEq] at h
      rw [← h]
      exact List.mem_singleton_self a
    | cons b t' =>
      rw [List.getLast?_cons_cons] at h
      exact List.mem_cons_of_mem a (ih z h)

theorem occB_append_false {q : List Char} (z : Char) :
    ∀ (A : List Char) {B : List Char}, occB q A = false → occB q B = false →
      A.getLast? = some z → z ∉ q → occB q (A ++ B) = false := by
  intro A
  induction A with
  | nil =>
    intro B hA hB hlast hz
    cases hlast
  | cons a A' ih =>
    intro B hA hB hlast hz
    rw [occB_cons] at hA
    rcases Bool.or_eq_false_iff.mp hA with ⟨hA1, hA2⟩
    rw [List.cons_append, occB_cons]
    apply Bool.or_eq_false_iff.mpr
    constructor
    · by_contra hcon
      rw [Bool.not_eq_false, ← List.cons_append] at hcon
      rcases prefB_append_split (a :: A') q hcon with hL | ⟨q2, hq2, _⟩
      · rw [hL] at hA1
        cases hA1
      · apply hz
        rw [hq2]
        exact List.mem_append_left _ (mem_of_getLast?_eq _ z hlast)
    · cases A' with
      | nil => simpa using hB
      | cons b A'' =>
        rw [List.getLast?_cons_cons] at hlast
        exact ih hA2 hB hlast hz

theorem occB_drop_false {q : List Char} :
    ∀ (l : List Char) (n : ℕ), occB q l = false → occB q (l.drop n) = false := by
  intro l
  induction l with
  | nil =>
    intro n h
    rw [List.drop_nil]
    exact h
  | cons c t ih =>
    intro n h
    cases n with
    | zero => exact h
    | succ m =>
      rw [List.drop_succ_cons]
      rw [occB_cons] at h
      exact ih m (Bool.or_eq_false_iff.mp h).2

namespace LLMResponseValidator

theorem substAux_skip (p R : List Char) :
    ∀ (n : ℕ) (t : List Char), substAux p R n t = substAux p R 0 (t.drop n) := by
  intro n
  induction n with
  | zero => intro t; rw [List.drop_zero]
  | succ m ih =>
    intro t
    cases t with
    | nil =>
      rw [List.drop_nil]
      rfl
    | cons c t' =>
      rw [List.drop_succ_cons]
      show substAux p R m t' = _
      exact ih t'

theorem substCi_nil (p R : List Char) : substCi p R [] = [] := rfl

theorem substCi_cons (p R : List Char) (c : Char) (t : List Char) :
    substCi p R (c :: t) =
      if p ≠ [] ∧ prefB (lowerL p) (lowerL (c :: t)) then
        R ++ substCi p R (t.drop (p.length - 1))
      else
        c :: substCi p R t := by
  show (if p ≠ [] ∧ prefB (lowerL p) (lowerL (c :: t)) then
      R ++ substAux p R (p.length - 1) t
    else c :: substAux p R 0 t) = _
  rw [substAux_skip]
  rfl

theorem substCi_pref_transfer (p R : List Char)
    (hRhead : (lowerL R).head? = some '[') :
    ∀ (t q : List Char), '[' ∉ lowerL q →
      prefB (lowerL q) (lowerL (substCi p R t)) = true →
      prefB (lowerL q) (lowerL t) = true := by
  intro t
  induction t with
  | nil =>
    intro q hq h
    exact h
  | cons c t' ih =>
    intro q hq h
    rw [substCi_cons] at h
    split_ifs at h with hg
    · rw [lowerL_append] at h
      cases q with
      | nil => exact prefB_nil_left _
      | cons d q' =>
        exfalso
        cases hR : lowerL R with
        | nil => rw [hR] at hRhead; cases hRhead
        | cons r0 rrest =>
          rw [hR] at hRhead
          simp only [List.head?_cons, Option.some.injEq] at hRhead
          rw [hR, lowerL_cons, List.cons_append, prefB_cons_cons, Bool.and_eq_true] at h
          rcases h with ⟨hd, _⟩
          apply hq
          rw [lowerL_cons]
          have : d.toLower = r0 := by simpa using hd
          rw [this, hRhead]
          exact List.mem_cons_self _ _
    · cases q with
      | nil => exact prefB_nil_left _
      | cons d q' =>
        rw [lowerL_cons, lowerL_cons, prefB_cons_cons, Bool.and_eq_true] at h
        rcases h with ⟨hd, hrest⟩
        have hq' : '[' ∉ lowerL q' := fun hmem => hq (by
          rw [lowerL_cons]
          exact List.mem_cons_of_mem _ hmem)
        have htr := ih q' hq' hrest
        rw [lowerL_cons, lowerL_cons, prefB_cons_cons, Bool.and_eq_true]
        exact ⟨hd, htr⟩

theorem occB_substCi_nil (p R : List Char) (hp : p ≠ []) :
    occB (lowerL p) (lowerL (substCi p R [])) = false := by
  have hlp := lowerL_ne_nil hp
  cases hlpc : lowerL p with
  | nil => exact absurd hlpc hlp
  | cons e lp' => rfl

theorem substCi_no_occ (p R : List Char) (hp : p ≠ [])
    (hRhead : (lowerL R).head? = some '[') (hRlast : (lowerL R).getLast? = some ']')
    (hRnoP : occB (lowerL p) (lowerL R) = false)
    (hlb : '[' ∉ lowerL p) (hrb : ']' ∉ lowerL p) :
    ∀ t, occB (lowerL p) (lowerL (substCi p R t)) = false := by
  suffices H : ∀ (n : ℕ) (t : List Char), t.length ≤ n →
      occB (lowerL p) (lowerL (substCi p R t)) = false by
    intro t
    exact H t.length t le_rfl
  intro n
  induction n with
  | zero =>
    intro t ht
    have : t = [] := List.eq_nil_of_length_eq_zero (Nat.le_zero.mp ht)
    rw [this]
    exact occB_substCi_nil p R hp
  | succ n ihn =>
    intro t ht
    cases t with
    | nil => exact occB_substCi_nil p R hp
    | cons c t' =>
      rw [substCi_cons]
      split_ifs with hg
      · rw [lowerL_append]
        apply occB_append_false ']' (lowerL R) hRnoP ?_ hRlast hrb
        apply ihn
        have := List.length_drop (p.length - 1) t'
        simp only [List.length_cons] at ht
        omega
      · rw [lowerL_cons, occB_cons]
        apply Bool.or_eq_false_iff.mpr
        refine ⟨?_, ihn t' (by simp only [List.length_cons] at ht; omega)⟩
        by_contra hcon
        rw [Bool.not_eq_false] at hcon
        cases p with
        | nil => exact hp rfl
        | cons e p' =>
          rw [lowerL_cons, prefB_cons_cons, Bool.and_eq_true] at hcon
          rcases hcon with ⟨hec, hrest⟩
          have hq' : '[' ∉ lowerL p' := fun hmem => hlb (by
            rw [lowerL_cons]
            exact List.mem_cons_of_mem _ hmem)
          have htr := substCi_pref_transfer (e :: p') R hRhead t' p' hq' hrest
          apply hg
          refine ⟨by simp, ?_⟩
          rw [lowerL_cons, lowerL_cons, prefB_cons_cons, Bool.and_eq_true]
          exact ⟨hec, htr⟩

theorem substCi_no_occ_pres (p R q : List Char)
    (hRhead : (lowerL R).head? = some '[') (hRlast : (lowerL R).getLast? = some ']')
    (hRnoQ : occB (lowerL q) (lowerL R) = false)
    (hlb : '[' ∉ lowerL q) (hrb : ']' ∉ lowerL q) :
    ∀ t, occB (lowerL q) (lowerL t) = false →
      occB (lowerL q) (lowerL (substCi p R t)) = false := by
  suffices H : ∀ (n : ℕ) (t : List Char), t.length ≤ n →
      occB (lowerL q) (lowerL t) = false →
      occB (lowerL q) (lowerL (substCi p R t)) = false by
    intro t
    exact H t.length t le_rfl
  intro n
  induction n with
  | zero =>
    intro t ht hocc
    have : t = [] := List.eq_nil_of_length_eq_zero (Nat.le_zero.mp ht)
    rw [this]
    rw [this] at hocc
    exact hocc
  | succ n ihn =>
    intro t ht hocc
    cases t with
    | nil => exact hocc
    | cons c t' =>
      have hocc' : occB (lowerL q) (lowerL t') = false := by
        rw [lowerL_cons, occB_cons] at hocc
        exact (Bool.or_eq_false_iff.mp hocc).2
      rw [substCi_cons]
      split_ifs with hg
      · rw [lowerL_append]
        apply occB_append_false ']' (lowerL R) hRnoQ ?_ hRlast hrb
        apply ihn
        · have := List.length_drop (p.length - 1) t'
          simp only [List.length_cons] at ht
          omega
        · rw [lowerL_drop]
          exact occB_drop_false _ _ hocc'
      · rw [lowerL_cons, occB_cons]
        apply Bool.or_eq_false_iff.mpr
        refine ⟨?_, ihn t' (by simp only [List.length_cons] at ht; omega) hocc'⟩
        by_contra hcon
        rw [Bool.not_eq_false] at hcon
        cases q with
        | nil =>
          rw [show lowerL ([] : List Char) = [] from rfl, occB_nil_left] at hocc
          cases hocc
        | cons d q' =>
          rw [lowerL_cons, prefB_cons_cons, Bool.and_eq_true] at hcon
          rcases hcon with ⟨hd, hrest⟩
          have hq' : '[' ∉ lowerL q' := fun hmem => hlb (by
            rw [lowerL_cons]
            exact List.mem_cons_of_mem _ hmem)
          have htr := substCi_pref_transfer p R hRhead t' q' hq' hrest
          have hpref : prefB (lowerL (d :: q')) (lowerL (c :: t')) = true := by
            rw [lowerL_cons, lowerL_cons, prefB_cons_cons, Bool.and_eq_true]
            exact ⟨hd, htr⟩
          have hoccT : occB (lowerL (d :: q')) (lowerL (c :: t')) = true :=
            occB_of_prefB hpref
          rw [hoccT] at hocc
          cases hocc

theorem substCi_id_of_no_occ (p R : List Char) :
    ∀ t, occB (lowerL p) (lowerL t) = false → substCi p R t = t := by
  intro t
  induction t with
  | nil => intro _; rfl
  | cons c t' ih =>
    intro h
    rw [lowerL_cons, occB_cons] at h
    rcases Bool.or_eq_false_iff.mp h with ⟨h1, h2⟩
    rw [substCi_cons, if_neg]
    · rw [ih h2]
    · rintro ⟨hp, hpref⟩
      rw [lowerL_cons] at hpref
      rw [hpref] at h1
      cases h1

end LLMResponseValidator

/-! ## Supporting lemmas: sanitize_response -/

namespace LLMResponseValidator

theorem dangerous_patterns_good :
    ∀ pat ∈ dangerous_patterns,
      pat.data ≠ [] ∧ '[' ∉ lowerL pat.data ∧ ']' ∉ lowerL pat.data ∧
        occB (lowerL pat.data) (lowerL removedText.data) = false := by
  decide

theorem removedText_head : (lowerL removedText.data).head? = some '[' := by decide

theorem removedText_last : (lowerL removedText.data).getLast? = some ']' := by decide

theorem sanitizeText_data (s : String) :
    (sanitizeText s).data =
      dangerous_patterns.foldl (fun l pat => substCi pat.data removedText.data l) s.data := by
  suffices H : ∀ (pats : List String) (s2 : String),
      (pats.foldl (fun c pat => String.mk (substCi pat.data removedText.data c.data)) s2).data =
        pats.foldl (fun l pat => substCi pat.data removedText.data l) s2.data by
    exact H dangerous_patterns s
  intro pats
  induction pats with
  | nil => intro s2; rfl
  | cons q rest ih =>
    intro s2
    show (rest.foldl _ (String.mk (substCi q.data removedText.data s2.data))).data = _
    rw [ih]
    rfl

theorem foldSub_pres (pat : String)
    (hgood : '[' ∉ lowerL pat.data ∧ ']' ∉ lowerL pat.data ∧
      occB (lowerL pat.data) (lowerL removedText.data) = false) :
    ∀ (pats : List String) (s : List Char),
      occB (lowerL pat.data) (lowerL s) = false →
      occB (lowerL pat.data)
        (lowerL (pats.foldl (fun l q => substCi q.data removedText.data l) s)) = false := by
  intro pats
  induction pats with
  | nil => intro s h; exact h
  | cons q rest ih =>
    intro s h
    show occB _ (lowerL (rest.foldl _ (substCi q.data removedText.data s))) = false
    apply ih
    exact substCi_no_occ_pres q.data removedText.data pat.data removedText_head
      removedText_last hgood.2.2 hgood.1 hgood.2.1 s h

theorem foldSub_no_occ :
    ∀ (pats : List String),
      (∀ q ∈ pats, q.data ≠ [] ∧ '[' ∉ lowerL q.data ∧ ']' ∉ lowerL q.data ∧
        occB (lowerL q.data) (lowerL removedText.data) = false) →
      ∀ (s : List Char) (pat : String), pat ∈ pats →
        occB (lowerL pat.data)
          (lowerL (pats.foldl (fun l q => substCi q.data removedText.data l) s)) = false := by
  intro pats
  induction pats with
  | nil => intro _ s pat h; cases h
  | cons q rest ih =>
    intro hall s pat hmem
    have hq := hall q (List.mem_cons_self q rest)
    rcases List.mem_cons.mp hmem with rfl | hin
    · show occB _ (lowerL (rest.foldl _ (substCi pat.data removedText.data s))) = false
      apply foldSub_pres pat ⟨hq.2.1, hq.2.2.1, hq.2.2.2⟩
      exact substCi_no_occ pat.data removedText.data hq.1 removedText_head
        removedText_last hq.2.2.2 hq.2.1 hq.2.2.1 s
    · show occB _ (lowerL (rest.foldl _ (substCi q.data removedText.data s))) = false
      exact ih (fun r hr => hall r (List.mem_cons_of_mem q hr)) _ pat hin

theorem foldSub_id :
    ∀ (pats : List String) (s : List Char),
      (∀ pat ∈ pats, occB (lowerL pat.data) (lowerL s) = false) →
      pats.foldl (fun l q => substCi q.data removedText.data l) s = s := by
  intro pats
  induction pats with
  | nil => intro s _; rfl
  | cons q rest ih =>
    intro s hall
    have hq := hall q (List.mem_cons_self q rest)
    show rest.foldl _ (substCi q.data removedText.data s) = s
    rw [substCi_id_of_no_occ q.data removedText.data s hq]
    exact ih s (fun pat hp => hall pat (List.mem_cons_of_mem q hp))

theorem sanitizeText_no_occ (s : String) :
    ∀ pat ∈ dangerous_patterns,
      occB (lowerL pat.data) (lowerL (sanitizeText s).data) = false := by
  intro pat hp
  rw [sanitizeText_data]
  exact foldSub_no_occ dangerous_patterns dangerous_patterns_good s.data pat hp

theorem string_eq_of_data {a b : String} (h : a.data = b.data) : a = b := by
  cases a
  cases b
  cases h
  rfl

theorem sanitizeText_idem (s : String) :
    sanitizeText (sanitizeText s) = sanitizeText s := by
  apply string_eq_of_data
  rw [sanitizeText_data (sanitizeText s)]
  exact foldSub_id dangerous_patterns (sanitizeText s).data (sanitizeText_no_occ s)

theorem setKey_lookup_self (k : String) (v : JVal) :
    ∀ (p : Payload), lookupKey k p = some v → setKey k v p = p := by
  intro p
  induction p with
  | nil => intro h; cases h
  | cons q t ih =>
    rcases q with ⟨k2, v2⟩
    intro h
    rw [lookupKey] at h
    unfold setKey
    split_ifs with hk
    · rw [if_pos hk] at h
      injection h with hv
      rw [hk, hv]
    · rw [if_neg hk] at h
      rw [ih h]

theorem sanitizeField_lookup_other (p : Payload) (f k : String) (h : k ≠ f) :
    lookupKey k (sanitizeField p f) = lookupKey k p := by
  unfold sanitizeField
  cases hl : lookupKey f p with
  | none => rfl
  | some v =>
    cases v with
    | jstr s => exact lookupKey_setKey_ne k f _ p h
    | jnum q => rfl
    | jbool b => rfl
    | jnull => rfl
    | jlist l => rfl
    | jobj o => rfl

theorem sanitizeField_lookup_self (p : Payload) (f : String) :
    lookupKey f (sanitizeField p f) =
      match lookupKey f p with
      | some (JVal.jstr s) => some (JVal.jstr (sanitizeText s))
      | o => o := by
  unfold sanitizeField
  cases hl : lookupKey f p with
  | none => exact hl
  | some v =>
    cases v with
    | jstr s => exact lookupKey_setKey_same f _ p
    | jnum q => exact hl
    | jbool b => exact hl
    | jnull => exact hl
    | jlist l => exact hl
    | jobj o => exact hl

theorem sanitizeField_id (p : Payload) (f : String)
    (h : ∀ s : String, lookupKey f p = some (JVal.jstr s) → sanitizeText s = s) :
    sanitizeField p f = p := by
  unfold sanitizeField
  cases hl : lookupKey f p with
  | none => rfl
  | some v =>
    cases v with
    | jstr s =>
      show setKey f (JVal.jstr (sanitizeText s)) p = p
      rw [h s hl]
      exact setKey_lookup_self f (JVal.jstr s) p hl
    | jnum q => rfl
    | jbool b => rfl
    | jnull => rfl
    | jlist l => rfl
    | jobj o => rfl

theorem clampConfidence_lookup_ne (p : Payload) (k : String) (h : k ≠ "confidence_score") :
    lookupKey k (clampConfidence p) = lookupKey k p := by
  unfold clampConfidence
  cases lookupKey "confidence_score" p with
  | none => rfl
  | some v =>
    dsimp only
    cases toNumQ v with
    | none => exact lookupKey_setKey_ne k _ _ p h
    | some q =>
      dsimp only
      split_ifs
      · exact lookupKey_setKey_ne k _ _ p h
      · rfl

theorem clampConfidence_idem (p : Payload) :
    clampConfidence (clampConfidence p) = clampConfidence p := by
  cases hl : lookupKey "confidence_score" p with
  | none =>
    have h1 : clampConfidence p = p := by
      unfold clampConfidence
      rw [hl]
    rw [h1]
    exact h1
  | some v =>
    cases htn : toNumQ v with
    | none =>
      have h1 : clampConfidence p = setKey "confidence_score" (JVal.jnum 0.5) p := by
        simp only [clampConfidence, hl, htn]
      rw [h1]
      have h2 : lookupKey "confidence_score" (setKey "confidence_score" (JVal.jnum 0.5) p) =
          some (JVal.jnum 0.5) := lookupKey_setKey_same _ _ _
      simp only [clampConfidence, h2, toNumQ]
      rw [if_neg (by norm_num : ¬((0.5 : ℚ) < 0 ∨ (0.5 : ℚ) > 1))]
    | some q =>
      by_cases hb : q < 0 ∨ q > 1
      · have h1 : clampConfidence p = setKey "confidence_score" (JVal.jnum 0.5) p := by
          simp only [clampConfidence, hl, htn]
          rw [if_pos hb]
        rw [h1]
        have h2 : lookupKey "confidence_score" (setKey "confidence_score" (JVal.jnum 0.5) p) =
            some (JVal.jnum 0.5) := lookupKey_setKey_same _ _ _
        simp only [clampConfidence, h2, toNumQ]
        rw [if_neg (by norm_num : ¬((0.5 : ℚ) < 0 ∨ (0.5 : ℚ) > 1))]
      · have h1 : clampConfidence p = p := by
          simp only [clampConfidence, hl, htn]
          rw [if_neg hb]
        rw [h1]
        exact h1

theorem sanitize_response_eq (p : Payload) :
    sanitize_response p = clampConfidence
      (sanitizeField (sanitizeField (sanitizeField p "immediate_management")
        "patient_education") "clinical_reasoning") := rfl

theorem fieldsFold_lookup (p : Payload) (f : String)
    (hf : f ∈ ["immediate_management", "patient_education", "clinical_reasoning"]) :
    lookupKey f (sanitizeField (sanitizeField (sanitizeField p "immediate_management")
        "patient_education") "clinical_reasoning") =
      match lookupKey f p with
      | some (JVal.jstr s) => some (JVal.jstr (sanitizeText s))
      | o => o := by
  fin_cases hf
  · rw [sanitizeField_lookup_other _ "clinical_reasoning" _ (by decide),
      sanitizeField_lookup_other _ "patient_education" _ (by decide)]
    exact sanitizeField_lookup_self p "immediate_management"
  · rw [sanitizeField_lookup_other _ "clinical_reasoning" _ (by decide),
      sanitizeField_lookup_self _ "patient_education",
      sanitizeField_lookup_other _ "immediate_management" _ (by decide)]
  · rw [sanitizeField_lookup_self _ "clinical_reasoning",
      sanitizeField_lookup_other _ "patient_education" _ (by decide),
      sanitizeField_lookup_other _ "immediate_management" _ (by decide)]

theorem sanitize_response_field_lookup (p : Payload) (f : String)
    (hf : f ∈ ["immediate_management", "patient_education", "clinical_reasoning"]) :
    lookupKey f (sanitize_response p) =
      match lookupKey f p with
      | some (JVal.jstr s) => some (JVal.jstr (sanitizeText s))
      | o => o := by
  rw [sanitize_response_eq]
  rw [clampConfidence_lookup_ne _ f (by fin_cases hf <;> decide)]
  exact fieldsFold_lookup p f hf

end LLMResponseValidator

/-! ## Claim theorems: C8 -/

open LLMResponseValidator in
/-- C8 as stated is false: sanitize_response only rewrites the three fields
immediate_management, patient_education and clinical_reasoning, so a
dangerous-advice phrase in any other field (here red_flags) survives
sanitization: the sanitized payload still matches the unsafe-pattern scan. -/
theorem C8_counterexample :
    sanitize_response [("red_flags", JVal.jstr "home surgery")] =
        [("red_flags", JVal.jstr "home surgery")] ∧
      hasUnsafeContent (sanitize_response [("red_flags", JVal.jstr "home surgery")]) = true := by
  constructor
  · rfl
  · decide

open LLMResponseValidator in
/-- C8 amended: sanitize_response removes every dangerous-pattern match from
the three string fields it rewrites (immediate_management, patient_education,
clinical_reasoning) and is idempotent; matches in other fields are out of its
reach. -/
theorem C8_sanitize_fields_and_idempotent (response : Payload) :
    (∀ f ∈ ["immediate_management", "patient_education", "clinical_reasoning"],
      ∀ s : String, lookupKey f (sanitize_response response) = some (JVal.jstr s) →
        ∀ pat ∈ dangerous_patterns,
          occB (lowerL pat.data) (lowerL s.data) = false) ∧
      sanitize_response (sanitize_response response) = sanitize_response response := by
  have hclean : ∀ f ∈ ["immediate_management", "patient_education", "clinical_reasoning"],
      ∀ s : String, lookupKey f (sanitize_response response) = some (JVal.jstr s) →
        ∃ s0 : String, s = sanitizeText s0 := by
    intro f hf s hs
    rw [sanitize_response_field_lookup response f hf] at hs
    rcases hl2 : lookupKey f response with _ | v
    · rw [hl2] at hs
      cases hs
    · rw [hl2] at hs
      cases v with
      | jstr s0 =>
        simp only [Option.some.injEq, JVal.jstr.injEq] at hs
        exact ⟨s0, hs.symm⟩
      | jnum q => simp at hs
      | jbool b => simp at hs
      | jnull => simp at hs
      | jlist l => simp at hs
      | jobj o => simp at hs
  constructor
  · intro f hf s hs pat hpat
    obtain ⟨s0, rfl⟩ := hclean f hf s hs
    exact sanitizeText_no_occ s0 pat hpat
  · have hfix : ∀ f ∈ ["immediate_management", "patient_education", "clinical_reasoning"],
        ∀ s : String, lookupKey f (sanitize_response response) = some (JVal.jstr s) →
          sanitizeText s = s := by
      intro f hf s hs
      obtain ⟨s0, rfl⟩ := hclean f hf s hs
      exact sanitizeText_idem s0
    rw [sanitize_response_eq (sanitize_response response)]
    rw [sanitizeField_id (sanitize_response response) "immediate_management"
      (fun s hs => hfix _ (by decide) s hs)]
    rw [sanitizeField_id (sanitize_response response) "patient_education"
      (fun s hs => hfix _ (by decide) s hs)]
    rw [sanitizeField_id (sanitize_response response) "clinical_reasoning"
      (fun s hs => hfix _ (by decide) s hs)]
    rw [sanitize_response_eq response]
    exact clampConfidence_idem _

/-- Witness for the amended C8: a payload whose immediate_management field is
exactly a dangerous phrase sanitizes to the replacement marker, which matches
no unsafe pattern, and sanitizing again changes nothing. -/
theorem C8_witness :
    (∀ pat ∈ LLMResponseValidator.dangerous_patterns,
      occB (lowerL pat.data) (lowerL ("[REMOVED: UNSAFE ADVICE]" : String).data) = false) ∧
      LLMResponseValidator.sanitize_response
          (LLMResponseValidator.sanitize_response
            [("immediate_management", JVal.jstr "home surgery")]) =
        LLMResponseValidator.sanitize_response
          [("immediate_management", JVal.jstr "home surgery")] := by
  have h := C8_sanitize_fields_and_idempotent
    [("immediate_management", JVal.jstr "home surgery")]
  refine ⟨?_, h.2⟩
  intro pat hpat
  exact h.1 "immediate_management" (by decide) "[REMOVED: UNSAFE ADVICE]" (by rfl) pat hpat

/-! ## Supporting lemmas and claim theorems: C6 -/

namespace LLMResponseValidator

theorem generate_recommendations_preserves (r : ValidationResult) :
    (generate_recommendations r).errors = r.errors ∧
      (generate_recommendations r).quality_score = r.quality_score ∧
      (generate_recommendations r).warnings = r.warnings := by
  unfold generate_recommendations
  dsimp only
  split_ifs <;> exact ⟨rfl, rfl, rfl⟩

end LLMResponseValidator

set_option maxRecDepth 20000 in
open LLMResponseValidator in
/-- C6 as stated is false: a payload whose confidence_score field is absent
entirely can still validate with is_valid = true.  c6payload has the five
other required fields and a 41-character clinical_reasoning; the missing
confidence only costs a structure warning and a 0.8 quality factor, and
_validate_confidence silently defaults it to 0.5. -/
theorem C6_counterexample :
    lookupKey "confidence_score" c6payload = none ∧
      (validate_response (JVal.jobj c6payload) "malaria" [] none).is_valid = true := by
  constructor
  · rfl
  · have hget : jGet (JVal.jobj c6payload) "confidence_score" (JVal.jnum 0.5) =
        .ok (JVal.jnum 0.5) := rfl
    have hconf : validate_confidence (JVal.jobj c6payload) c6r1 = .ok c6r1 := by
      simp only [validate_confidence, hget, except_bind_ok, toNumQ]
      rw [if_neg (by norm_num : ¬((0.5 : ℚ) < 0.1)),
        if_neg (by norm_num : ¬((0.5 : ℚ) < 0.4)),
        if_neg (by norm_num : ¬((0.5 : ℚ) > 0.8))]
      rfl
    have hqual : assess_quality (JVal.jobj c6payload) c6r1 = .ok c6r6 := rfl
    have e1 : validate_response (JVal.jobj c6payload) "malaria" [] none =
        match validate_confidence (JVal.jobj c6payload) c6r1 with
        | .error e => failResult c6r1 e
        | .ok r6 =>
          match assess_quality (JVal.jobj c6payload) r6 with
          | .error e => failResult r6 e
          | .ok r7 =>
            let r8 := generate_recommendations r7
            { r8 with
              is_valid := if r8.errors.isEmpty ∧ r8.quality_score ≥ 0.3 then true else false } :=
      rfl
    rw [e1, hconf]
    dsimp only
    rw [hqual]
    dsimp only
    obtain ⟨he, hq, -⟩ := generate_recommendations_preserves c6r6
    rw [he, hq]
    have hr1q : c6r1.quality_score = (1.0 : ℚ) * 0.8 := rfl
    have hp : (c6r6.errors.isEmpty = true) ∧ c6r6.quality_score ≥ 0.3 := by
      constructor
      · rfl
      · show min c6r1.quality_score
            ((((5 : ℕ) : ℚ) / ((6 : ℕ) : ℚ) + min (((41 : ℕ) : ℚ) / 200) 1.0 +
              min (((0 : ℕ) : ℚ) / 3) 1.0) / 3) ≥ 0.3
        rw [ge_iff_le, le_min_iff]
        constructor
        · rw [hr1q]
          norm_num
        · norm_num [min_def]
    rw [if_pos hp]

open LLMResponseValidator in
/-- C6 amended: an entirely absent confidence_score is not fatal.
_validate_confidence defaults it to 0.5 and returns the state unchanged with
no error, and _validate_structure records only a warning for the missing
field, never an error, so is_valid does not become false on account of the
missing confidence alone. -/
theorem C6_missing_confidence_not_fatal (l : Payload) (r : ValidationResult)
    (h : lookupKey "confidence_score" l = none) :
    validate_confidence (JVal.jobj l) r = .ok r ∧
      (validate_structure (JVal.jobj l) r).errors = r.errors := by
  constructor
  · simp only [validate_confidence, jGet, h, Option.getD_none, except_bind_ok, toNumQ]
    rw [if_neg (by norm_num : ¬((0.5 : ℚ) < 0.1)),
      if_neg (by norm_num : ¬((0.5 : ℚ) < 0.4)),
      if_neg (by norm_num : ¬((0.5 : ℚ) > 0.8))]
    rfl
  · simp only [validate_structure, h]
    split_ifs <;> rfl

/-- Witness for the amended C6: on the concrete payload with no
confidence_score, confidence validation returns its input unchanged and
structure validation adds no error. -/
theorem C6_witness :
    LLMResponseValidator.validate_confidence (JVal.jobj LLMResponseValidator.c6payload)
        LLMResponseValidator.initResult = .ok LLMResponseValidator.initResult ∧
      (LLMResponseValidator.validate_structure (JVal.jobj LLMResponseValidator.c6payload)
        LLMResponseValidator.initResult).errors = LLMResponseValidator.initResult.errors :=
  C6_missing_confidence_not_fatal LLMResponseValidator.c6payload
    LLMResponseValidator.initResult rfl
